import Mathlib

/-!
# Crossword layout engine: a shallow embedding

This file embeds the crossword grid placement and layout engine of the
repository (the `CrosswordGrid` class and `generateCrosswordLayout` driver)
into Lean and proves properties of the embedding.

Modelling conventions, chosen to mirror the JavaScript semantics exactly:

* A grid cell is `Cell.empty` (JS `null`), `Cell.letter ch` (a one-character
  string), or `Cell.undef` (JS `undefined`: an array index that was never
  assigned).  The working grid is a square array of arrays of size `size`
  whose in-range cells start as `null`; reading a column index outside a row
  array yields `undefined`, and reading a ROW index outside the outer array
  yields `undefined`, so that the subsequent column access throws a
  TypeError.  `readCell` returns `Except.error JSError.typeError` in exactly
  that case.  JS `cell !== null` corresponds to `cell ≠ Cell.empty` (it is
  true for `undefined`), and `cell === null` to `cell = Cell.empty`.
* Writing `grid[r][c] = ch` for an in-range row `r` succeeds for EVERY
  column `c` (JS extends the row array, or stores a named property for a
  negative index) and the value is readable afterwards; the cells are
  therefore modelled as a total function `Int → Int → Cell` updated by
  `place`.  Every row index the engine ever writes is in range (the anchor
  row is 2 and every other placement is guarded by `canPlace`), so `place`
  is total here.
* JS `Array.prototype.sort` is stable; the three sorts of the source
  (entries by descending answer length, candidates by ascending distance,
  clues by ascending number) are modelled by stable insertion sorts.
* The candidate comparator uses the float centre `(min+max)/2`; all values
  are exact halves of integers, so comparisons of `|x - (min+max)/2|` sums
  agree with the integer comparison of the doubled distances used here.
* The `wordStarts` JS `Map` is keyed by the string `"row-col"`, injective on
  the non-negative coordinates that occur; it is modelled by searching the
  placed-word list, where a later record with the same start cell and
  direction overwrites an earlier one (`getLast?` of the matching records).
-/

set_option maxRecDepth 10000

deriving instance DecidableEq for Except

namespace Crossword

/-- A grid cell value: JS `undefined`, JS `null`, or a letter. -/
inductive Cell where
  | undef : Cell
  | empty : Cell
  | letter : Char → Cell
deriving DecidableEq, Repr

/-- Word orientation, the JS strings `'across'` and `'down'`. -/
inductive Direction where
  | across : Direction
  | down : Direction
deriving DecidableEq, Repr

/-- The JS exceptions the engine can raise: a TypeError from an
out-of-range row access, or `throw new Error(msg)`. -/
inductive JSError where
  | typeError : JSError
  | jsError : String → JSError
deriving DecidableEq, Repr

/-- A placement record, as pushed by `CrosswordGrid.place`. -/
structure PlacedWord where
  answer : List Char
  clue : String
  row : Int
  col : Int
  direction : Direction
  number : Nat
deriving DecidableEq, Repr

/-- The `CrosswordGrid` state: fixed square dimension, the cell buffer, and
the append-only placed-word list. -/
structure CrosswordGrid where
  size : Nat
  cells : Int → Int → Cell
  placedWords : List PlacedWord

/-- An input entry `{answer, clue}`. -/
structure Entry where
  answer : List Char
  clue : String
deriving DecidableEq, Repr

/-- A candidate intersection `{row, col, direction}` from `findIntersections`. -/
structure Candidate where
  row : Int
  col : Int
  direction : Direction
deriving DecidableEq, Repr

/-- The fresh grid: `Array(size) × Array(size)` of `null`; everything
outside the square is an unassigned index, i.e. `undefined`. -/
def emptyGrid (size : Nat) : CrosswordGrid :=
  { size := size
    cells := fun r c =>
      if 0 ≤ r ∧ r < (size : Int) ∧ 0 ≤ c ∧ c < (size : Int) then .empty else Cell.undef
    placedWords := [] }

/-- JS `this.grid[r][c]` as a read: a row index outside `[0, size)` makes
`this.grid[r]` `undefined` and the column access throws a TypeError; an
in-range row yields the stored cell (possibly `undefined` for a column
index never assigned). -/
def readCell (g : CrosswordGrid) (r c : Int) : Except JSError Cell :=
  if 0 ≤ r ∧ r < (g.size : Int) then .ok (g.cells r c) else .error .typeError

/-- The cell of position `i` of a word written at `(row, col)` in direction
`dir`: `(row, col+i)` for across, `(row+i, col)` for down. -/
def cellPos (row col : Int) (dir : Direction) (i : Nat) : Int × Int :=
  match dir with
  | .across => (row, col + (i : Int))
  | .down => (row + (i : Int), col)

/-- `word[i]` pairs in loop order, the JS `for (let i = 0; i < len; i++)`. -/
def idxChars (k : Nat) : List Char → List (Nat × Char)
  | [] => []
  | ch :: rest => (k, ch) :: idxChars (k + 1) rest

/-- The letter-agreement loop of `canPlace`: for each position, JS returns
false when the cell `!== null` and `!== word[i]` (so also for `undefined`). -/
def checkConflicts (g : CrosswordGrid) (row col : Int) (dir : Direction) :
    List (Nat × Char) → Except JSError Bool
  | [] => .ok true
  | (i, ch) :: rest =>
    match readCell g (cellPos row col dir i).1 (cellPos row col dir i).2 with
    | .error e => .error e
    | .ok .empty => checkConflicts g row col dir rest
    | .ok (.letter ch2) =>
      if ch2 = ch then checkConflicts g row col dir rest else .ok false
    | .ok Cell.undef => .ok false

/-- One perpendicular-neighbour probe of the adjacency loop, the JS pattern
`if (guard && grid[nr][nc] !== null) { if (i > 0 && grid[pr][pc] === null)
return false; }`.  `.ok false` is the early `return false`. -/
def adjProbe (g : CrosswordGrid) (guard : Bool) (nr nc pr pc2 : Int) (i : Nat) :
    Except JSError Bool :=
  if guard then
    match readCell g nr nc with
    | .error e => .error e
    | .ok nb =>
      if nb ≠ .empty then
        if 0 < i then
          match readCell g pr pc2 with
          | .error e => .error e
          | .ok pv => if pv = .empty then .ok false else .ok true
        else .ok true
      else .ok true
  else .ok true

/-- The adjacency check at one position of the word: only an empty target
cell is inspected; for an across word the probes look above and below with
the previous cell `(r, c-1)`, for a down word left and right with the
previous cell `(r-1, c)`. -/
def adjCheckAt (g : CrosswordGrid) (row col : Int) : Direction → Nat → Except JSError Bool
  | .across, i =>
    match readCell g row (col + (i : Int)) with
    | .error e => .error e
    | .ok cell =>
      if cell = .empty then
        match adjProbe g (decide (0 < row)) (row - 1) (col + (i : Int))
            row (col + (i : Int) - 1) i with
        | .error e => .error e
        | .ok false => .ok false
        | .ok true =>
          adjProbe g (decide (row < (g.size : Int) - 1)) (row + 1) (col + (i : Int))
            row (col + (i : Int) - 1) i
      else .ok true
  | .down, i =>
    match readCell g (row + (i : Int)) col with
    | .error e => .error e
    | .ok cell =>
      if cell = .empty then
        match adjProbe g (decide (0 < col)) (row + (i : Int)) (col - 1)
            (row + (i : Int) - 1) col i with
        | .error e => .error e
        | .ok false => .ok false
        | .ok true =>
          adjProbe g (decide (col < (g.size : Int) - 1)) (row + (i : Int)) (col + 1)
            (row + (i : Int) - 1) col i
      else .ok true

/-- The adjacency loop over all word positions. -/
def adjLoop (g : CrosswordGrid) (row col : Int) (dir : Direction) :
    List Nat → Except JSError Bool
  | [] => .ok true
  | i :: rest =>
    match adjCheckAt g row col dir i with
    | .error e => .error e
    | .ok true => adjLoop g row col dir rest
    | .ok false => .ok false

/-- Second half of the end-contact check for an across word: the cell after
the end must be `null` when it is inside the grid. -/
def endsAfterAcross (g : CrosswordGrid) (len : Int) (row col : Int) :
    Except JSError Bool :=
  if col + len < (g.size : Int) then
    match readCell g row (col + len) with
    | .error e => .error e
    | .ok cell => if cell ≠ .empty then .ok false else .ok true
  else .ok true

/-- Second half of the end-contact check for a down word. -/
def endsAfterDown (g : CrosswordGrid) (len : Int) (row col : Int) :
    Except JSError Bool :=
  if row + len < (g.size : Int) then
    match readCell g (row + len) col with
    | .error e => .error e
    | .ok cell => if cell ≠ .empty then .ok false else .ok true
  else .ok true

/-- The end-contact check of `canPlace`: the cell before the start and the
cell after the end, in the word's own orientation. -/
def endsCheck (g : CrosswordGrid) (len : Int) (row col : Int) (dir : Direction) :
    Except JSError Bool :=
  match dir with
  | .across =>
    if 0 < col then
      match readCell g row (col - 1) with
      | .error e => .error e
      | .ok cell => if cell ≠ .empty then .ok false else endsAfterAcross g len row col
    else endsAfterAcross g len row col
  | .down =>
    if 0 < row then
      match readCell g (row - 1) col with
      | .error e => .error e
      | .ok cell => if cell ≠ .empty then .ok false else endsAfterDown g len row col
    else endsAfterDown g len row col

/-- `CrosswordGrid.canPlace(word, row, col, direction)`: bounds check on the
word's own axis, then letter agreement, then the adjacency loop, then the
end-contact check. -/
def canPlace (g : CrosswordGrid) (word : List Char) (row col : Int)
    (dir : Direction) : Except JSError Bool :=
  if (match dir with
      | .across => decide ((g.size : Int) < col + (word.length : Int))
      | .down => decide ((g.size : Int) < row + (word.length : Int))) then .ok false
  else
    match checkConflicts g row col dir (idxChars 0 word) with
    | .error e => .error e
    | .ok false => .ok false
    | .ok true =>
      match adjLoop g row col dir (List.range word.length) with
      | .error e => .error e
      | .ok false => .ok false
      | .ok true => endsCheck g (word.length : Int) row col dir

/-- Overwrite one cell with a letter. -/
def setCell (cells : Int → Int → Cell) (r0 c0 : Int) (ch : Char) :
    Int → Int → Cell :=
  fun r c => if r = r0 ∧ c = c0 then .letter ch else cells r c

/-- The write loop of `place`, in JS order (later writes win). -/
def writeWord (cells : Int → Int → Cell) (row col : Int) (dir : Direction) :
    List (Nat × Char) → (Int → Int → Cell)
  | [] => cells
  | (i, ch) :: rest =>
    writeWord (setCell cells (cellPos row col dir i).1 (cellPos row col dir i).2 ch)
      row col dir rest

/-- `CrosswordGrid.place(word, row, col, direction, clue, number)`: write
each letter into its cell and push one record.  (The JS write would throw
for a ROW index outside `[0, size)`; every row the driver writes is in
range — the anchor row is 2 and all other rows pass `canPlace` — so the
write is modelled as total.) -/
def place (g : CrosswordGrid) (word : List Char) (row col : Int)
    (dir : Direction) (clue : String) (number : Nat) : CrosswordGrid :=
  { g with
    cells := writeWord g.cells row col dir (idxChars 0 word)
    placedWords := g.placedWords ++
      [{ answer := word, clue := clue, row := row, col := col,
         direction := dir, number := number }] }

/-- The guarded emission of one down candidate (a match on an ACROSS
placed word): emitted when row and col are non-negative and `canPlace`
accepts. -/
def tryCandidateAcross (g : CrosswordGrid) (word : List Char) (nr nc : Int) :
    Except JSError (List Candidate) :=
  if 0 ≤ nr ∧ 0 ≤ nc then
    match canPlace g word nr nc .down with
    | .error e => .error e
    | .ok true => .ok [{ row := nr, col := nc, direction := .down }]
    | .ok false => .ok []
  else .ok []

/-- The guarded emission of one across candidate (a match on a DOWN
placed word). -/
def tryCandidateDown (g : CrosswordGrid) (word : List Char) (nr nc : Int) :
    Except JSError (List Candidate) :=
  if 0 ≤ nr ∧ 0 ≤ nc then
    match canPlace g word nr nc .across with
    | .error e => .error e
    | .ok true => .ok [{ row := nr, col := nc, direction := .across }]
    | .ok false => .ok []
  else .ok []

/-- One candidate test of `findIntersections`: on a letter match, the
perpendicular placement aligning `word[i]` on `placed.answer[j]`:
`(placed.row - i, placed.col + j)` going down for an across placed word,
`(placed.row + j, placed.col - i)` going across for a down placed word. -/
def tryCandidate (g : CrosswordGrid) (word : List Char) (placed : PlacedWord)
    (i j : Nat) (wi pj : Char) : Except JSError (List Candidate) :=
  if wi = pj then
    match placed.direction with
    | .across =>
      tryCandidateAcross g word (placed.row - (i : Int)) (placed.col + (j : Int))
    | .down =>
      tryCandidateDown g word (placed.row + (j : Int)) (placed.col - (i : Int))
  else .ok []

/-- Inner loop of `findIntersections`: `j` over the placed answer. -/
def interLoopJ (g : CrosswordGrid) (word : List Char) (placed : PlacedWord)
    (i : Nat) (wi : Char) : List (Nat × Char) → Except JSError (List Candidate)
  | [] => .ok []
  | (j, pj) :: rest =>
    match tryCandidate g word placed i j wi pj with
    | .error e => .error e
    | .ok cs =>
      match interLoopJ g word placed i wi rest with
      | .error e => .error e
      | .ok more => .ok (cs ++ more)

/-- Middle loop of `findIntersections`: `i` over the candidate word. -/
def interLoopI (g : CrosswordGrid) (word : List Char) (placed : PlacedWord) :
    List (Nat × Char) → Except JSError (List Candidate)
  | [] => .ok []
  | (i, wi) :: rest =>
    match interLoopJ g word placed i wi (idxChars 0 placed.answer) with
    | .error e => .error e
    | .ok cs =>
      match interLoopI g word placed rest with
      | .error e => .error e
      | .ok more => .ok (cs ++ more)

/-- Outer loop of `findIntersections`: over the placed words. -/
def interLoopP (g : CrosswordGrid) (word : List Char) :
    List PlacedWord → Except JSError (List Candidate)
  | [] => .ok []
  | placed :: rest =>
    match interLoopI g word placed (idxChars 0 word) with
    | .error e => .error e
    | .ok cs =>
      match interLoopP g word rest with
      | .error e => .error e
      | .ok more => .ok (cs ++ more)

/-- `CrosswordGrid.findIntersections(word)`. -/
def findIntersections (g : CrosswordGrid) (word : List Char) :
    Except JSError (List Candidate) :=
  interLoopP g word g.placedWords

/-- Bounding box `{minRow, maxRow, minCol, maxCol}` of `getBounds`. -/
structure Bounds where
  minRow : Int
  maxRow : Int
  minCol : Int
  maxCol : Int
deriving DecidableEq, Repr

/-- One scan step of `getBounds`. -/
def boundsStep (g : CrosswordGrid) (b : Bounds) (r c : Int) : Bounds :=
  if g.cells r c ≠ .empty then
    { minRow := min b.minRow r, maxRow := max b.maxRow r,
      minCol := min b.minCol c, maxCol := max b.maxCol c }
  else b

/-- `CrosswordGrid.getBounds()`: scan the square, extending the box at
every non-`null` cell, starting from `{size, 0, size, 0}`. -/
def getBounds (g : CrosswordGrid) : Bounds :=
  (List.range g.size).foldl
    (fun b r =>
      (List.range g.size).foldl (fun b c => boundsStep g b (r : Int) (c : Int)) b)
    { minRow := (g.size : Int), maxRow := 0, minCol := (g.size : Int), maxCol := 0 }

/-- One output clue `{number, clue, answer, x, y}`. -/
structure ClueEntry where
  number : Nat
  clue : String
  answer : List Char
  x : Int
  y : Int
deriving DecidableEq, Repr

/-- The output puzzle shape of `toOutput`. -/
structure Output where
  grid : List (List Char)
  width : Int
  height : Int
  across : List ClueEntry
  down : List ClueEntry
deriving DecidableEq, Repr

/-- The JS `for (x = lo; x <= hi; x++)` index list. -/
def intRange (lo hi : Int) : List Int :=
  (List.range (hi + 1 - lo).toNat).map fun (k : Nat) => lo + (k : Int)

/-- Rendering of a cell in the output grid, JS `this.grid[r][c] || '-'`. -/
def renderCell : Cell → Char
  | .letter ch => ch
  | _ => '-'

/-- Does some placed word start at `(r, c)`?  (The `wordStarts` map has the
key `"r-c"`.) -/
def startsAt (pw : List PlacedWord) (r c : Int) : Bool :=
  pw.any fun w => decide (w.row = r) && decide (w.col = c)

/-- The record the `wordStarts` map holds at key `(r, c)` for a direction:
the LAST placed word with that start cell and direction (each assignment
`wordStarts.get(key)[dir] = word` overwrites the previous one). -/
def lastStartDir (pw : List PlacedWord) (r c : Int) (d : Direction) :
    Option PlacedWord :=
  (pw.filter fun w =>
    decide (w.row = r) && decide (w.col = c) && decide (w.direction = d)).getLast?

/-- The clue entry pushed for cell `(r, c)` with number `n` in direction
`d`, when the map holds a record there. -/
def clueAt (pw : List PlacedWord) (b : Bounds) (r c : Int) (n : Nat)
    (d : Direction) : List ClueEntry :=
  match lastStartDir pw r c d with
  | some w => [{ number := n, clue := w.clue, answer := w.answer,
                 x := c - b.minCol + 1, y := r - b.minRow + 1 }]
  | none => []

/-- The numbering scan of `toOutput`, over the bounding-box cells in
row-major order: each cell starting at least one word takes the next
number and pushes its across and/or down clue. -/
def scanNumber (pw : List PlacedWord) (b : Bounds) :
    List (Int × Int) → Nat → List ClueEntry × List ClueEntry
  | [], _ => ([], [])
  | (r, c) :: rest, n =>
    if startsAt pw r c then
      let tail := scanNumber pw b rest (n + 1)
      (clueAt pw b r c n .across ++ tail.1, clueAt pw b r c n .down ++ tail.2)
    else scanNumber pw b rest n

/-- The bounding-box cells in row-major (reading) order. -/
def boxCells (b : Bounds) : List (Int × Int) :=
  ((intRange b.minRow b.maxRow).map fun r =>
    (intRange b.minCol b.maxCol).map fun c => (r, c)).flatten

/-- Stable insertion of a clue into a number-sorted list (the JS stable
sort by `a.number - b.number`). -/
def insertByNumber (e : ClueEntry) : List ClueEntry → List ClueEntry
  | [] => [e]
  | f :: fs => if e.number ≤ f.number then e :: f :: fs else f :: insertByNumber e fs

/-- `across.sort((a, b) => a.number - b.number)` as a stable sort. -/
def sortByNumber (l : List ClueEntry) : List ClueEntry :=
  l.foldr insertByNumber []

/-- `CrosswordGrid.toOutput()`. -/
def toOutput (g : CrosswordGrid) : Output :=
  let b := getBounds g
  let scan := scanNumber g.placedWords b (boxCells b) 1
  { grid := (intRange b.minRow b.maxRow).map fun r =>
      (intRange b.minCol b.maxCol).map fun c => renderCell (g.cells r c)
    width := b.maxCol - b.minCol + 1
    height := b.maxRow - b.minRow + 1
    across := sortByNumber scan.1
    down := sortByNumber scan.2 }

/-- Stable insertion for the entry sort by DESCENDING answer length (the
JS stable `sort((a, b) => b.answer.length - a.answer.length)`). -/
def insertByLen (e : Entry) : List Entry → List Entry
  | [] => [e]
  | f :: fs =>
    if f.answer.length ≤ e.answer.length then e :: f :: fs else f :: insertByLen e fs

/-- `[...entries].sort((a, b) => b.answer.length - a.answer.length)`. -/
def sortEntries (l : List Entry) : List Entry :=
  l.foldr insertByLen []

/-- Twice the Manhattan distance of a candidate from the float centre of
the bounding box: `|2 row - (minRow+maxRow)| + |2 col - (minCol+maxCol)|`.
All JS values are exact halves of integers, so comparing these doubled
integer distances agrees exactly with the JS float comparator. -/
def dist2 (b : Bounds) (cand : Candidate) : Nat :=
  (2 * cand.row - (b.minRow + b.maxRow)).natAbs +
    (2 * cand.col - (b.minCol + b.maxCol)).natAbs

/-- Stable insertion for the candidate sort by ascending distance. -/
def insertByDist (b : Bounds) (x : Candidate) : List Candidate → List Candidate
  | [] => [x]
  | y :: ys => if dist2 b x ≤ dist2 b y then x :: y :: ys else y :: insertByDist b x ys

/-- `intersections.sort((a, b) => distA - distB)` as a stable sort. -/
def sortCandidates (b : Bounds) (l : List Candidate) : List Candidate :=
  l.foldr (insertByDist b) []

/-- One driver step for one entry: skip it when its answer is already
placed; otherwise find the intersections and, when any exist, place the
best-scoring (centre-nearest) candidate with the next sequential number. -/
def tryPlaceEntry (g : CrosswordGrid) (pc : Nat) (e : Entry) :
    Except JSError (CrosswordGrid × Nat) :=
  if g.placedWords.any (fun w => decide (w.answer = e.answer)) then .ok (g, pc)
  else
    match findIntersections g e.answer with
    | .error err => .error err
    | .ok cands =>
      match sortCandidates (getBounds g) cands with
      | [] => .ok (g, pc)
      | best :: _ =>
        .ok (place g e.answer best.row best.col best.direction e.clue (pc + 1), pc + 1)

/-- One pass of the driver over the entries after the anchor. -/
def passLoop : CrosswordGrid → Nat → List Entry → Except JSError (CrosswordGrid × Nat)
  | g, pc, [] => .ok (g, pc)
  | g, pc, e :: rest =>
    match tryPlaceEntry g pc e with
    | .error err => .error err
    | .ok (g', pc') => passLoop g' pc' rest

/-- The fixed number of passes (`maxAttempts = 3`) over the same list. -/
def passes : CrosswordGrid → Nat → List Entry → Nat → Except JSError (CrosswordGrid × Nat)
  | g, pc, _, 0 => .ok (g, pc)
  | g, pc, rest, k + 1 =>
    match passLoop g pc rest with
    | .error err => .error err
    | .ok (g', pc') => passes g' pc' rest k

/-- The driver body after the length check: sort the entries by descending
length, place the longest at the fixed anchor `(2, 2)` across with number
1, then run the three passes.  (On an empty entry list the JS
`sortedEntries[0].answer` throws; the caller rules that out.) -/
def runDriver (entries : List Entry) : Except JSError CrosswordGrid :=
  match sortEntries entries with
  | [] => .error .typeError
  | first :: rest =>
    match passes (place (emptyGrid 20) first.answer 2 2 .across first.clue 1) 1 rest 3 with
    | .error err => .error err
    | .ok (g, _) => .ok g

/-- `throw new Error('Not enough words to generate crossword')`. -/
def msgNotEnough : String := "Not enough words to generate crossword"

/-- `throw new Error('Could not place enough words in crossword')`. -/
def msgCouldNotPlace : String := "Could not place enough words in crossword"

/-- `generateCrosswordLayout(entries)`. -/
def generateCrosswordLayout (entries : List Entry) : Except JSError Output :=
  if entries.length < 2 then .error (.jsError msgNotEnough)
  else
    match runDriver entries with
    | .error err => .error err
    | .ok g =>
      if g.placedWords.length < 3 then .error (.jsError msgCouldNotPlace)
      else .ok (toOutput g)

/-! ## Derived notions the claims speak about -/

/-- `(r, c)` lies inside the working square `[0, size) × [0, size)`. -/
def inSquare (g : CrosswordGrid) (r c : Int) : Prop :=
  0 ≤ r ∧ r < (g.size : Int) ∧ 0 ≤ c ∧ c < (g.size : Int)

instance (g : CrosswordGrid) (r c : Int) : Decidable (inSquare g r c) :=
  decidable_of_iff
    (0 ≤ r ∧ r < (g.size : Int) ∧ 0 ≤ c ∧ c < (g.size : Int)) Iff.rfl

/-- The cell immediately before position `i` in the word's own
orientation (position `i - 1`). -/
def prevPos (row col : Int) (dir : Direction) (i : Nat) : Int × Int :=
  match dir with
  | .across => (row, col + (i : Int) - 1)
  | .down => (row + (i : Int) - 1, col)

/-- First perpendicular neighbour of a position (above for across, left
for down). -/
def perpA (dir : Direction) (p : Int × Int) : Int × Int :=
  match dir with
  | .across => (p.1 - 1, p.2)
  | .down => (p.1, p.2 - 1)

/-- Second perpendicular neighbour of a position (below for across, right
for down). -/
def perpB (dir : Direction) (p : Int × Int) : Int × Int :=
  match dir with
  | .across => (p.1 + 1, p.2)
  | .down => (p.1, p.2 + 1)

/-- The guard JS puts before reading the first perpendicular neighbour
(`row > 0` for across, `col > 0` for down). -/
def guardA (row col : Int) (dir : Direction) : Prop :=
  match dir with
  | .across => 0 < row
  | .down => 0 < col

instance (row col : Int) : (dir : Direction) → Decidable (guardA row col dir)
  | .across => inferInstanceAs (Decidable (0 < row))
  | .down => inferInstanceAs (Decidable (0 < col))

/-- The guard JS puts before reading the second perpendicular neighbour
(`row < size - 1` for across, `col < size - 1` for down). -/
def guardB (g : CrosswordGrid) (row col : Int) (dir : Direction) : Prop :=
  match dir with
  | .across => row < (g.size : Int) - 1
  | .down => col < (g.size : Int) - 1

instance (g : CrosswordGrid) (row col : Int) :
    (dir : Direction) → Decidable (guardB g row col dir)
  | .across => inferInstanceAs (Decidable (row < (g.size : Int) - 1))
  | .down => inferInstanceAs (Decidable (col < (g.size : Int) - 1))

/-- The adjacency-rejection condition the code implements at position `i`:
the target cell is empty, some guarded perpendicular neighbour is
non-empty, `i > 0`, and the cell at `i - 1` in the word's own orientation
is EMPTY. -/
def rejects (g : CrosswordGrid) (row col : Int) (dir : Direction) (i : Nat) : Prop :=
  g.cells (cellPos row col dir i).1 (cellPos row col dir i).2 = .empty ∧
  0 < i ∧
  g.cells (prevPos row col dir i).1 (prevPos row col dir i).2 = .empty ∧
  ((guardA row col dir ∧
      g.cells (perpA dir (cellPos row col dir i)).1
        (perpA dir (cellPos row col dir i)).2 ≠ .empty) ∨
   (guardB g row col dir ∧
      g.cells (perpB dir (cellPos row col dir i)).1
        (perpB dir (cellPos row col dir i)).2 ≠ .empty))

instance (g : CrosswordGrid) (row col : Int) (dir : Direction) (i : Nat) :
    Decidable (rejects g row col dir i) :=
  decidable_of_iff
    (g.cells (cellPos row col dir i).1 (cellPos row col dir i).2 = .empty ∧
     0 < i ∧
     g.cells (prevPos row col dir i).1 (prevPos row col dir i).2 = .empty ∧
     ((guardA row col dir ∧
         g.cells (perpA dir (cellPos row col dir i)).1
           (perpA dir (cellPos row col dir i)).2 ≠ .empty) ∨
      (guardB g row col dir ∧
         g.cells (perpB dir (cellPos row col dir i)).1
           (perpB dir (cellPos row col dir i)).2 ≠ .empty))) Iff.rfl

/-- The cell immediately before a placed word's start. -/
def endBeforePos (w : PlacedWord) : Int × Int :=
  match w.direction with
  | .across => (w.row, w.col - 1)
  | .down => (w.row - 1, w.col)

/-- The cell immediately after a placed word's end. -/
def endAfterPos (w : PlacedWord) : Int × Int :=
  match w.direction with
  | .across => (w.row, w.col + (w.answer.length : Int))
  | .down => (w.row + (w.answer.length : Int), w.col)

/-- A position is empty or out of bounds. -/
def endFreeAt (g : CrosswordGrid) (p : Int × Int) : Prop :=
  g.cells p.1 p.2 = .empty ∨ ¬ inSquare g p.1 p.2

instance (g : CrosswordGrid) (p : Int × Int) : Decidable (endFreeAt g p) :=
  decidable_of_iff (g.cells p.1 p.2 = .empty ∨ ¬ inSquare g p.1 p.2) Iff.rfl

/-- Reading a 0-based cell of the output grid; indices outside the
rendered box give `none`. -/
def outCellAt (out : Output) (r c : Int) : Option Char :=
  if 0 ≤ r ∧ 0 ≤ c then
    match out.grid[r.toNat]? with
    | some rowL => rowL[c.toNat]?
    | none => none
  else none

/-- Reading position `k` of a clue entry from the output grid: the entry's
1-based `(x, y)` walked `k` cells rightwards (across) or downwards (down). -/
def readEntryCell (out : Output) (e : ClueEntry) (d : Direction) (k : Nat) :
    Option Char :=
  match d with
  | .across => outCellAt out (e.y - 1) (e.x - 1 + (k : Int))
  | .down => outCellAt out (e.y - 1 + (k : Int)) (e.x - 1)

/-- All clue numbers of an output, across then down. -/
def clueNumbers (out : Output) : List Nat :=
  (out.across ++ out.down).map fun e => e.number

/-- The number of bounding-box cells at which some placed word starts. -/
def numStarts (g : CrosswordGrid) : Nat :=
  ((boxCells (getBounds g)).filter fun p => startsAt g.placedWords p.1 p.2).length

/-- The grid coordinates a clue entry's 1-based box coordinates denote. -/
def entryCellOf (b : Bounds) (e : ClueEntry) : Int × Int :=
  (b.minRow + e.y - 1, b.minCol + e.x - 1)

/-! ## The specification's candidate enumeration (for the refinement claim
about `findIntersections`).

These definitions transcribe §4.3 of the specification: "for every
PlacementRecord already placed, for every pair of indices (i into `word`,
j into the placed word's answer) where the letters match, compute the
hypothetical placement of `word` in the orientation perpendicular to the
placed word such that position i of `word` lands exactly on position j of
the placed word.  Compute the resulting (row, col) from that alignment.
If the computed row/col are non-negative and `canPlace` accepts the
hypothetical placement, emit it as a candidate." -/

/-- The hypothetical placement of the spec: perpendicular orientation,
with position `i` of the word on position `j` of the placed word. -/
def specAligned (placed : PlacedWord) (i j : Nat) : Candidate :=
  match placed.direction with
  | .across => { row := placed.row - (i : Int), col := placed.col + (j : Int),
                 direction := .down }
  | .down => { row := placed.row + (j : Int), col := placed.col - (i : Int),
               direction := .across }

/-- Emit the aligned candidate when row and col are non-negative and
`canPlace` accepts it. -/
def specEmit (g : CrosswordGrid) (word : List Char) (placed : PlacedWord)
    (i j : Nat) : List Candidate :=
  let cand := specAligned placed i j
  if 0 ≤ cand.row ∧ 0 ≤ cand.col ∧
      canPlace g word cand.row cand.col cand.direction = .ok true
  then [cand] else []

/-- All candidates a single placed word contributes, over the matching
letter pairs `(i, j)` in order. -/
def specPairs (g : CrosswordGrid) (word : List Char) (placed : PlacedWord) :
    List Candidate :=
  ((idxChars 0 word).map fun p =>
    ((idxChars 0 placed.answer).map fun q =>
      if p.2 = q.2 then specEmit g word placed p.1 q.1 else []).flatten).flatten

/-- The spec-side candidate enumeration of §4.3. -/
def specCandidates (g : CrosswordGrid) (word : List Char) : List Candidate :=
  (g.placedWords.map fun placed => specPairs g word placed).flatten

/-! ## Invariants of driver-reachable grids -/

/-- Row-coordinate sanity of the placed words: enough to guarantee that
`findIntersections` never throws.  It holds for every grid the driver
builds, whatever the input entries. -/
def RowsOk (g : CrosswordGrid) : Prop :=
  ∀ w ∈ g.placedWords,
    (w.direction = .across → 0 ≤ w.row ∧ w.row < (g.size : Int)) ∧
    (w.direction = .down →
      0 ≤ w.row ∧ w.row + (w.answer.length : Int) ≤ (g.size : Int))

instance (g : CrosswordGrid) : Decidable (RowsOk g) :=
  decidable_of_iff
    (∀ w ∈ g.placedWords,
      (w.direction = .across → 0 ≤ w.row ∧ w.row < (g.size : Int)) ∧
      (w.direction = .down →
        0 ≤ w.row ∧ w.row + (w.answer.length : Int) ≤ (g.size : Int))) Iff.rfl

/-- `(r, c)` is one of the cells of a placed word's run. -/
def inRun (w : PlacedWord) (r c : Int) : Prop :=
  ∃ i, ∃ _ : i < w.answer.length,
    cellPos w.row w.col w.direction i = (r, c)

/-- The never-written value of a cell: `null` inside the square,
`undefined` outside. -/
def baseCell (size : Nat) (r c : Int) : Cell :=
  if 0 ≤ r ∧ r < (size : Int) ∧ 0 ≤ c ∧ c < (size : Int) then .empty else Cell.undef

/-- The full invariant of grids the driver builds from entries with
non-empty answers: coordinate ranges of every record (the across record
that may overflow the right edge is only the anchor, at `(2, 2)`), every
record's letters are in the grid at its run, and every cell outside all
runs still holds its initial value. -/
def Dinv (g : CrosswordGrid) : Prop :=
  2 < (g.size : Int) ∧
  (∀ w ∈ g.placedWords, w.answer ≠ [] ∧ 0 ≤ w.row ∧ 0 ≤ w.col) ∧
  (∀ w ∈ g.placedWords, w.direction = .down →
    w.row + (w.answer.length : Int) ≤ (g.size : Int) ∧ w.col < (g.size : Int)) ∧
  (∀ w ∈ g.placedWords, w.direction = .across →
    w.row < (g.size : Int) ∧
    (w.col + (w.answer.length : Int) ≤ (g.size : Int) ∨ (w.row = 2 ∧ w.col = 2))) ∧
  (∀ w ∈ g.placedWords, ∀ i, ∀ h : i < w.answer.length,
    g.cells (cellPos w.row w.col w.direction i).1
      (cellPos w.row w.col w.direction i).2 = .letter (w.answer.get ⟨i, h⟩)) ∧
  (∀ r c, (∀ w ∈ g.placedWords, ¬ inRun w r c) →
    g.cells r c = baseCell g.size r c)

/-- Every record carries the answer and clue of one of the input
entries. -/
def AnswersFrom (entries : List Entry) (g : CrosswordGrid) : Prop :=
  ∀ w ∈ g.placedWords, ∃ e ∈ entries, w.answer = e.answer ∧ w.clue = e.clue

/-! ## Concrete inputs used by counterexamples and witnesses -/

/-- Four entries whose driver run places `['X','Y']` down at `(2, 3)` in
pass 1 and then places `['X','Y','Z']` down at the SAME start cell in pass
2 (its pass-1 attempt is rejected by the adjacency rule next to
`['C','G','G','G']`, and the crossing `['X','Y']` fills the cell that
unlocks it).  The final grid holds 4 records but the clue map keeps only
the last record per start cell and direction. -/
def cexEntries : List Entry :=
  [ { answer := ['A','X','C','D','E','F'], clue := "c0" },
    { answer := ['C','G','G','G'], clue := "cA" },
    { answer := ['X','Y','Z'], clue := "c2" },
    { answer := ['X','Y'], clue := "c1" } ]

/-- The shadowed answer of `cexEntries`. -/
def shadowedAnswer : List Char := ['X','Y']

/-- Three entries whose anchor word has 19 letters: it is placed at column
2 of the size-20 grid with no `canPlace` check, so its last letter is
written at column 20, outside the working grid. -/
def bigEntries : List Entry :=
  [ { answer := ['A','B','C','D','E','F','G','H','I','J','K','L','M','N','O','P','Q','R','S'],
      clue := "b0" },
    { answer := ['B','Y'], clue := "b1" },
    { answer := ['D','Z'], clue := "b2" } ]

/-- A small grid holding `AB` across at `(1,2)` and `AA` down at `(1,2)`:
at position `i = 1` of a hypothetical `['A','X']` across at `(2,2)` the
target `(2,3)` is empty, the cell above `(1,3)` is non-empty, and the
preceding cell `(2,2)` is NON-empty — the code accepts the placement. -/
def gridC1 : CrosswordGrid :=
  place (place (emptyGrid 20) ['A','B'] 1 2 .across "w1" 1) ['A','A'] 1 2 .down "w2" 2

/-- A grid with a single word `AB` across at `(2,2)`, used to witness the
adjacency-rejection rule: `['C','D']` across at `(3,2)` is rejected at
position 1 (above it lies `B`, and the cell before it is empty). -/
def gridW1 : CrosswordGrid :=
  place (emptyGrid 20) ['A','B'] 2 2 .across "w" 1

/-! ## Numbering machinery for `toOutput` -/

/-- Row-major (reading) order on grid coordinates. -/
def lexLt (p q : Int × Int) : Prop :=
  p.1 < q.1 ∨ (p.1 = q.1 ∧ p.2 < q.2)

instance (p q : Int × Int) : Decidable (lexLt p q) :=
  decidable_of_iff (p.1 < q.1 ∨ (p.1 = q.1 ∧ p.2 < q.2)) Iff.rfl

/-- The bounding-box cells at which some placed word starts, in row-major
order — the cells that receive clue numbers. -/
def startCells (pw : List PlacedWord) (b : Bounds) : List (Int × Int) :=
  (boxCells b).filter fun p => startsAt pw p.1 p.2

/-- Pair each list element with consecutive numbers starting from `n`. -/
def numbered : List (Int × Int) → Nat → List ((Int × Int) × Nat)
  | [], _ => []
  | p :: rest, n => (p, n) :: numbered rest (n + 1)

/-- `(r, c)` lies inside a bounding box. -/
def covers (b : Bounds) (r c : Int) : Prop :=
  b.minRow ≤ r ∧ r ≤ b.maxRow ∧ b.minCol ≤ c ∧ c ≤ b.maxCol

instance (b : Bounds) (r c : Int) : Decidable (covers b r c) :=
  decidable_of_iff (b.minRow ≤ r ∧ r ≤ b.maxRow ∧ b.minCol ≤ c ∧ c ≤ b.maxCol)
    Iff.rfl

/-! ## Reading lemmas -/

theorem readCell_ok_inv {g : CrosswordGrid} {r c : Int} {cell : Cell}
    (h : readCell g r c = .ok cell) :
    cell = g.cells r c ∧ 0 ≤ r ∧ r < (g.size : Int) := by
  unfold readCell at h
  split at h
  · next hc => simp only [Except.ok.injEq] at h; exact ⟨h.symm, hc⟩
  · simp at h

theorem readCell_in_range {g : CrosswordGrid} {r c : Int}
    (h1 : 0 ≤ r) (h2 : r < (g.size : Int)) :
    readCell g r c = .ok (g.cells r c) := by
  unfold readCell
  exact if_pos ⟨h1, h2⟩

theorem readCell_out_of_range {g : CrosswordGrid} {r c : Int}
    (h : ¬ (0 ≤ r ∧ r < (g.size : Int))) :
    readCell g r c = .error .typeError := by
  unfold readCell
  exact if_neg h

/-! ## Inversion lemmas for the `canPlace` components -/

theorem checkConflicts_true_mem {g : CrosswordGrid} {row col : Int} {dir : Direction} :
    ∀ {l : List (Nat × Char)}, checkConflicts g row col dir l = .ok true →
    ∀ p ∈ l,
      readCell g (cellPos row col dir p.1).1 (cellPos row col dir p.1).2 = .ok .empty ∨
      readCell g (cellPos row col dir p.1).1 (cellPos row col dir p.1).2 =
        .ok (.letter p.2) := by
  intro l
  induction l with
  | nil => intro _ p hp; cases hp
  | cons hd tl ih =>
    intro h p hp
    obtain ⟨i, ch⟩ := hd
    rw [checkConflicts] at h
    split at h
    · simp at h
    · next heq =>
      rcases List.mem_cons.mp hp with rfl | hp'
      · exact Or.inl heq
      · exact ih h p hp'
    · next ch2 heq =>
      split at h
      · next hcc =>
        rcases List.mem_cons.mp hp with rfl | hp'
        · exact Or.inr (hcc ▸ heq)
        · exact ih h p hp'
      · simp at h
    · simp at h

theorem adjLoop_true_mem {g : CrosswordGrid} {row col : Int} {dir : Direction} :
    ∀ {l : List Nat}, adjLoop g row col dir l = .ok true →
    ∀ i ∈ l, adjCheckAt g row col dir i = .ok true := by
  intro l
  induction l with
  | nil => intro _ i hi; cases hi
  | cons hd tl ih =>
    intro h i hi
    rw [adjLoop] at h
    split at h
    · simp at h
    · next heq =>
      rcases List.mem_cons.mp hi with rfl | hi'
      · exact heq
      · exact ih h i hi'
    · simp at h

theorem adjProbe_reject (g : CrosswordGrid) (guard : Bool) (nr nc pr pc2 : Int)
    (i : Nat) (hg : guard = true) (hi : 0 < i)
    (hn : g.cells nr nc ≠ .empty) (hp : g.cells pr pc2 = .empty) :
    adjProbe g guard nr nc pr pc2 i ≠ .ok true := by
  intro h
  unfold adjProbe at h
  rw [if_pos hg] at h
  cases hrc : readCell g nr nc with
  | error e => rw [hrc] at h; simp at h
  | ok nb =>
    obtain ⟨hnb, _, _⟩ := readCell_ok_inv hrc
    rw [hrc] at h
    simp only [hnb] at h
    rw [if_pos hn, if_pos hi] at h
    cases hrp : readCell g pr pc2 with
    | error e => rw [hrp] at h; simp at h
    | ok pv =>
      obtain ⟨hpv, _, _⟩ := readCell_ok_inv hrp
      rw [hrp] at h
      simp only [hpv] at h
      rw [if_pos hp] at h
      simp at h

theorem adjCheckAt_not_rejects {g : CrosswordGrid} {row col : Int} {dir : Direction}
    {i : Nat} (h : adjCheckAt g row col dir i = .ok true) :
    ¬ rejects g row col dir i := by
  rintro ⟨hemp, hi, hprev, hor⟩
  cases dir with
  | across =>
    rw [adjCheckAt] at h
    split at h
    · simp at h
    · next cell heq =>
      obtain ⟨hc, _, _⟩ := readCell_ok_inv heq
      rw [if_pos (hc.trans (by simpa [cellPos] using hemp))] at h
      have hA := adjProbe_reject g (decide (0 < row)) (row - 1)
        (col + (i : Int)) row (col + (i : Int) - 1) i
      have hB := adjProbe_reject g (decide (row < (g.size : Int) - 1))
        (row + 1) (col + (i : Int)) row (col + (i : Int) - 1) i
      rcases hor with ⟨hg, hne⟩ | ⟨hg, hne⟩
      · have hA' := hA (by simpa [guardA] using hg) hi
          (by simpa [perpA, cellPos] using hne) (by simpa [prevPos] using hprev)
        split at h
        · simp at h
        · simp at h
        · next heq2 => exact hA' heq2
      · have hB' := hB (by simpa [guardB] using hg) hi
          (by simpa [perpB, cellPos] using hne) (by simpa [prevPos] using hprev)
        split at h
        · simp at h
        · simp at h
        · exact hB' h
  | down =>
    rw [adjCheckAt] at h
    split at h
    · simp at h
    · next cell heq =>
      obtain ⟨hc, _, _⟩ := readCell_ok_inv heq
      rw [if_pos (hc.trans (by simpa [cellPos] using hemp))] at h
      have hA := adjProbe_reject g (decide (0 < col)) (row + (i : Int))
        (col - 1) (row + (i : Int) - 1) col i
      have hB := adjProbe_reject g (decide (col < (g.size : Int) - 1))
        (row + (i : Int)) (col + 1) (row + (i : Int) - 1) col i
      rcases hor with ⟨hg, hne⟩ | ⟨hg, hne⟩
      · have hA' := hA (by simpa [guardA] using hg) hi
          (by simpa [perpA, cellPos] using hne) (by simpa [prevPos] using hprev)
        split at h
        · simp at h
        · simp at h
        · next heq2 => exact hA' heq2
      · have hB' := hB (by simpa [guardB] using hg) hi
          (by simpa [perpB, cellPos] using hne) (by simpa [prevPos] using hprev)
        split at h
        · simp at h
        · simp at h
        · exact hB' h

theorem canPlace_true_parts {g : CrosswordGrid} {word : List Char} {row col : Int}
    {dir : Direction} (h : canPlace g word row col dir = .ok true) :
    (match dir with
     | .across => ¬ (g.size : Int) < col + word.length
     | .down => ¬ (g.size : Int) < row + word.length) ∧
    checkConflicts g row col dir (idxChars 0 word) = .ok true ∧
    adjLoop g row col dir (List.range word.length) = .ok true ∧
    endsCheck g (word.length : Int) row col dir = .ok true := by
  cases dir <;>
  · rw [canPlace] at h
    split at h
    · next hb => simp at h
    · next hb =>
      refine ⟨by simpa using hb, ?_⟩
      split at h
      · simp at h
      · simp at h
      · next hcc =>
        refine ⟨hcc, ?_⟩
        split at h
        · simp at h
        · simp at h
        · next hal => exact ⟨hal, h⟩

/-! ## Counterexample theorems -/

/-- C1 counterexample: at position `i = 1` of `['A','X']` across at
`(2,2)` on `gridC1`, the target cell `(2,3)` is empty and its
perpendicular neighbour above, `(1,3)`, is non-empty, while the cell
before it in the word's own orientation, `(2,2)`, is NOT empty; the claim
then demands that the placement be judged illegal, but `canPlace`
accepts it. -/
theorem C1_counterexample :
    canPlace gridC1 ['A','X'] 2 2 .across = .ok true ∧
    gridC1.cells 2 3 = .empty ∧
    gridC1.cells 1 3 ≠ .empty ∧
    gridC1.cells 2 2 ≠ .empty := by decide

/-- C2 counterexample: for a negative row, `canPlace` on an across word
does not return false — it throws a TypeError (the claim says the run
merely fails the bounds check). -/
theorem C2_counterexample :
    canPlace (emptyGrid 20) ['A','B'] (-1) 2 .across = .error .typeError := by
  decide

/-- C4 counterexample: the driver run on `cexEntries` succeeds, its final
grid holds a placement record with answer `['X','Y']`, and yet no clue
entry of the output (across or down) carries that answer — that record
corresponds to no clue entry, because a later record with the same start
cell and direction overwrote it in the clue map. -/
theorem C4_counterexample :
    (match runDriver cexEntries, generateCrosswordLayout cexEntries with
     | .ok g, .ok out =>
       g.placedWords.any (fun w => decide (w.answer = shadowedAnswer)) &&
       (out.across ++ out.down).all (fun e => !decide (e.answer = shadowedAnswer))
     | _, _ => false) = true := by decide

/-- C5 counterexample: the layout on `bigEntries` succeeds, and its across
clue list holds an entry (the 19-letter anchor) whose reconstruction walk
leaves the output grid before `answer.length` cells are read: position 18
of the walk reads no cell at all, so the walk cannot reproduce the
answer. -/
theorem C5_counterexample :
    (match generateCrosswordLayout bigEntries with
     | .ok out =>
       out.across.any fun e =>
         decide (18 < e.answer.length) &&
         decide (readEntryCell out e .across 18 = none)
     | .error _ => false) = true := by decide

/-- C6 counterexample: the driver run on `cexEntries` succeeds, and in the
FINAL grid one placed word (`['X','Y']` down at `(2,3)`) has a non-empty
in-bounds cell immediately after its end — the later overlapping word
`['X','Y','Z']` put a letter there — so the end-contact property is not an
invariant of the whole run. -/
theorem C6_counterexample :
    (match runDriver cexEntries, generateCrosswordLayout cexEntries with
     | .ok g, .ok _ =>
       g.placedWords.any fun w =>
         !(decide (endFreeAt g (endBeforePos w)) &&
           decide (endFreeAt g (endAfterPos w)))
     | _, _ => false) = true := by decide

/-- C7 counterexample: the driver run on `bigEntries` succeeds and writes
a letter at `(2, 20)`, a cell OUTSIDE the fixed working grid (`size = 20`)
— the anchor word is placed with no `canPlace` capacity check, so
exceeding the grid is not in fact handled by `canPlace` returning false
for the anchor. -/
theorem C7_counterexample :
    (match runDriver bigEntries, generateCrosswordLayout bigEntries with
     | .ok g, .ok _ =>
       decide (g.cells 2 20 = .letter 'S') && decide (¬ inSquare g 2 20)
     | _, _ => false) = true := by decide


/-! ## C1: the adjacency rule as implemented -/

/-- C1 (amended): when `canPlace` inspects a position `i` whose target
cell is empty and a guarded perpendicular neighbour is non-empty, the
placement is judged illegal exactly when additionally `i > 0` and the cell
at `i - 1` in the word's own orientation is EMPTY (`rejects`); so whenever
such a position exists and `canPlace` returns at all, it returns false.
(The claim as frozen has the condition inverted: see
`C1_counterexample`.) -/
theorem C1_adjacency_rule (g : CrosswordGrid) (word : List Char) (row col : Int)
    (dir : Direction) (b : Bool) (i : Nat)
    (h : canPlace g word row col dir = .ok b)
    (hi : i < word.length) (hr : rejects g row col dir i) : b = false := by
  cases b with
  | false => rfl
  | true =>
    obtain ⟨-, -, hadj, -⟩ := canPlace_true_parts h
    exact absurd hr
      (adjCheckAt_not_rejects (adjLoop_true_mem hadj i (List.mem_range.mpr hi)))

/-- Witness for `C1_adjacency_rule` at a concrete rejected placement. -/
theorem C1_adjacency_rule_witness :
    canPlace gridW1 ['C','D'] 3 2 .across = .ok false ∧
    rejects gridW1 3 2 .across 1 ∧ false = false :=
  ⟨by decide, by decide,
    C1_adjacency_rule gridW1 ['C','D'] 3 2 .across false 1 (by decide)
      (by decide) (by decide)⟩

/-! ## C2: bounds behaviour of `canPlace` -/

/-- C2 (amended): `canPlace` returns false when the run overflows the
word-axis upper bound (parts 1 and 2); but a row outside `[0, size)` for
an across word, or a negative row for a down word, makes it throw a
TypeError rather than return false (parts 3 and 4); a negative column for
an across word, and an out-of-range column for a down word, read JS
`undefined` and fail the letter-agreement check, returning false (parts 5
and 6, on a grid whose never-written cells hold `undefined`). -/
theorem C2_bounds_behaviour (g : CrosswordGrid) (word : List Char) (row col : Int) :
    ((g.size : Int) < col + word.length →
       canPlace g word row col .across = .ok false) ∧
    ((g.size : Int) < row + word.length →
       canPlace g word row col .down = .ok false) ∧
    (word ≠ [] → ¬ (0 ≤ row ∧ row < (g.size : Int)) →
       ¬ (g.size : Int) < col + word.length →
       canPlace g word row col .across = .error .typeError) ∧
    (word ≠ [] → row < 0 → ¬ (g.size : Int) < row + word.length →
       canPlace g word row col .down = .error .typeError) ∧
    (word ≠ [] → (∀ r c, c < 0 → g.cells r c = Cell.undef) →
       0 ≤ row → row < (g.size : Int) → col < 0 →
       canPlace g word row col .across = .ok false) ∧
    (word ≠ [] → (∀ r c, ¬ inSquare g r c → g.cells r c = Cell.undef) →
       0 ≤ row → (col < 0 ∨ (g.size : Int) ≤ col) →
       ¬ (g.size : Int) < row + word.length →
       canPlace g word row col .down = .ok false) := by
  refine ⟨?_, ?_, ?_, ?_, ?_, ?_⟩
  · intro h
    rw [canPlace, if_pos (by simpa using h)]
  · intro h
    rw [canPlace, if_pos (by simpa using h)]
  · intro hw hrow hbound
    obtain ⟨w0, rest, rfl⟩ := List.exists_cons_of_ne_nil hw
    rw [canPlace, if_neg (by simpa using hbound), idxChars, checkConflicts]
    rw [show cellPos row col .across 0 = (row, col + ((0 : Nat) : Int)) from rfl]
    rw [readCell_out_of_range hrow]
  · intro hw hrow hbound
    obtain ⟨w0, rest, rfl⟩ := List.exists_cons_of_ne_nil hw
    rw [canPlace, if_neg (by simpa using hbound), idxChars, checkConflicts]
    rw [show cellPos row col .down 0 = (row + ((0 : Nat) : Int), col) from rfl]
    rw [readCell_out_of_range (by omega)]
  · intro hw hneg hr1 hr2 hcol
    obtain ⟨w0, rest, rfl⟩ := List.exists_cons_of_ne_nil hw
    by_cases hbound : (g.size : Int) < col + (w0 :: rest).length
    · rw [canPlace, if_pos (by simpa using hbound)]
    · rw [canPlace, if_neg (by simpa using hbound), idxChars, checkConflicts]
      rw [show cellPos row col .across 0 = (row, col + ((0 : Nat) : Int)) from rfl]
      rw [readCell_in_range hr1 hr2, hneg row (col + ((0 : Nat) : Int)) (by omega)]
  · intro hw hout hr1 hcol hbound
    obtain ⟨w0, rest, rfl⟩ := List.exists_cons_of_ne_nil hw
    have hr2 : row < (g.size : Int) := by
      simp only [List.length_cons] at hbound
      push_cast at hbound
      omega
    rw [canPlace, if_neg (by simpa using hbound), idxChars, checkConflicts]
    rw [show cellPos row col .down 0 = (row + ((0 : Nat) : Int), col) from rfl]
    rw [readCell_in_range (by omega) (by omega)]
    rw [hout (row + ((0 : Nat) : Int)) col (by intro hsq; rcases hcol with h | h <;> [exact absurd hsq.2.2.1 (by omega); exact absurd hsq.2.2.2 (by omega)])]

/-! ## C3: the failure contract of the driver -/

/-- C3: `generateCrosswordLayout` fails immediately with
`'Not enough words to generate crossword'` when fewer than 2 entries are
supplied; after the driver runs, it fails with
`'Could not place enough words in crossword'` whenever fewer than 3 words
ended up placed; and a successful result is exactly the normalization of a
driver grid with at least 3 placed words — no failure returns any output
structure. -/
theorem C3_failure_contract (entries : List Entry) :
    (entries.length < 2 →
       generateCrosswordLayout entries = .error (.jsError msgNotEnough)) ∧
    (∀ g, runDriver entries = .ok g → g.placedWords.length < 3 →
       2 ≤ entries.length →
       generateCrosswordLayout entries = .error (.jsError msgCouldNotPlace)) ∧
    (∀ out, generateCrosswordLayout entries = .ok out →
       ∃ g, runDriver entries = .ok g ∧ 3 ≤ g.placedWords.length ∧
         out = toOutput g) := by
  refine ⟨?_, ?_, ?_⟩
  · intro h
    rw [generateCrosswordLayout, if_pos h]
  · intro g hg hlt hge
    rw [generateCrosswordLayout, if_neg (by omega), hg]
    exact if_pos hlt
  · intro out h
    rw [generateCrosswordLayout] at h
    split at h
    · simp at h
    · split at h
      · simp at h
      · next g hg =>
        split at h
        · simp at h
        · next hn =>
          simp only [Except.ok.injEq] at h
          exact ⟨g, hg, by omega, h.symm⟩


/-! ## Write lemmas for `place` -/

theorem writeWord_not_in {row col : Int} {dir : Direction} :
    ∀ (l : List (Nat × Char)) (cells : Int → Int → Cell) (r c : Int),
    (∀ p ∈ l, cellPos row col dir p.1 ≠ (r, c)) →
    writeWord cells row col dir l r c = cells r c := by
  intro l
  induction l with
  | nil => intro cells r c _; rfl
  | cons hd tl ih =>
    intro cells r c hp
    obtain ⟨i, ch⟩ := hd
    rw [writeWord, ih _ r c (fun p hp' => hp p (List.mem_cons_of_mem _ hp'))]
    unfold setCell
    rw [if_neg]
    rintro ⟨h1, h2⟩
    exact hp (i, ch) (List.mem_cons_self _ _)
      (by rw [Prod.ext_iff]; exact ⟨h1.symm, h2.symm⟩)

theorem cellPos_inj {row col : Int} {dir : Direction} {i j : Nat}
    (h : cellPos row col dir i = cellPos row col dir j) : i = j := by
  cases dir <;>
  · simp only [cellPos, Prod.mk.injEq] at h
    omega

theorem mem_idxChars {p : Nat × Char} :
    ∀ {l : List Char} {k : Nat},
    p ∈ idxChars k l ↔ ∃ m, l[m]? = some p.2 ∧ p.1 = k + m := by
  obtain ⟨a, chp⟩ := p
  intro l
  induction l with
  | nil => intro k; simp [idxChars]
  | cons ch rest ih =>
    intro k
    rw [idxChars]
    simp only [List.mem_cons, ih]
    constructor
    · rintro (h | ⟨m, hm, hp⟩)
      · obtain ⟨rfl, rfl⟩ := Prod.mk.injEq .. ▸ h
        exact ⟨0, by simp, by simp⟩
      · exact ⟨m + 1, by simpa using hm, by omega⟩
    · rintro ⟨m, hm, hp⟩
      cases m with
      | zero =>
        left
        simp only [List.getElem?_cons_zero, Option.some.injEq] at hm
        simp [hm, hp]
      | succ m =>
        right
        exact ⟨m, by simpa using hm, by omega⟩

theorem idxChars_lt {l : List Char} {k : Nat} {p : Nat × Char}
    (h : p ∈ idxChars k l) : p.1 < k + l.length := by
  obtain ⟨m, hm, hp⟩ := mem_idxChars.mp h
  obtain ⟨hlt, -⟩ := List.getElem?_eq_some_iff.mp hm
  omega

theorem idxChars_unique {l : List Char} {k : Nat} {p q : Nat × Char}
    (hp : p ∈ idxChars k l) (hq : q ∈ idxChars k l) (h : p.1 = q.1) : p = q := by
  obtain ⟨m, hm, hp1⟩ := mem_idxChars.mp hp
  obtain ⟨m', hm', hq1⟩ := mem_idxChars.mp hq
  have hmm : m = m' := by omega
  subst hmm
  rw [hm] at hm'
  obtain ⟨a, b⟩ := p
  obtain ⟨a', b'⟩ := q
  simp only [Option.some.injEq] at hm'
  simp only at h hm' ⊢
  exact Prod.ext h hm'

theorem writeWord_run {row col : Int} {dir : Direction} :
    ∀ (l : List (Nat × Char)) (cells : Int → Int → Cell) (i : Nat) (ch : Char),
    (i, ch) ∈ l → (∀ p ∈ l, ∀ q ∈ l, p.1 = q.1 → p = q) →
    writeWord cells row col dir l (cellPos row col dir i).1
      (cellPos row col dir i).2 = .letter ch := by
  intro l
  induction l with
  | nil => intro cells i ch h _; cases h
  | cons hd tl ih =>
    intro cells i ch hmem huniq
    obtain ⟨j, cj⟩ := hd
    by_cases htl : (i, ch) ∈ tl
    · exact ih _ i ch htl
        (fun p hp q hq => huniq p (List.mem_cons_of_mem _ hp) q (List.mem_cons_of_mem _ hq))
    · have hhd : (i, ch) = (j, cj) := by
        rcases List.mem_cons.mp hmem with h | h
        · exact h
        · exact absurd h htl
      obtain ⟨rfl, rfl⟩ := Prod.mk.injEq .. ▸ hhd
      rw [writeWord]
      rw [writeWord_not_in tl _ _ _ ?_]
      · unfold setCell
        rw [if_pos ⟨rfl, rfl⟩]
      · intro p hp hpos
        have : p = (i, ch) := huniq p (List.mem_cons_of_mem _ hp) (i, ch)
          (List.mem_cons_self _ _) (cellPos_inj hpos)
        exact htl (this ▸ hp)

theorem place_placedWords (g : CrosswordGrid) (word : List Char) (row col : Int)
    (dir : Direction) (clue : String) (number : Nat) :
    (place g word row col dir clue number).placedWords =
      g.placedWords ++ [{ answer := word, clue := clue, row := row, col := col,
                          direction := dir, number := number }] := rfl

theorem place_cells_off {g : CrosswordGrid} {word : List Char} {row col : Int}
    {dir : Direction} {clue : String} {number : Nat} {r c : Int}
    (h : ∀ i, i < word.length → cellPos row col dir i ≠ (r, c)) :
    (place g word row col dir clue number).cells r c = g.cells r c :=
  writeWord_not_in _ _ _ _ (fun p hp => h p.1 (by simpa using idxChars_lt hp))

theorem place_cells_run {g : CrosswordGrid} {word : List Char} {row col : Int}
    {dir : Direction} {clue : String} {number : Nat} (i : Nat)
    (hi : i < word.length) :
    (place g word row col dir clue number).cells (cellPos row col dir i).1
      (cellPos row col dir i).2 = .letter (word.get ⟨i, hi⟩) := by
  refine writeWord_run _ _ i _ ?_ ?_
  · exact mem_idxChars.mpr ⟨i, by simp, by simp⟩
  · intro p hp q hq
    exact idxChars_unique hp hq

theorem canPlace_true_run_cells {g : CrosswordGrid} {word : List Char}
    {row col : Int} {dir : Direction}
    (h : canPlace g word row col dir = .ok true) (i : Nat) (hi : i < word.length) :
    readCell g (cellPos row col dir i).1 (cellPos row col dir i).2 = .ok .empty ∨
    readCell g (cellPos row col dir i).1 (cellPos row col dir i).2 =
      .ok (.letter (word.get ⟨i, hi⟩)) := by
  obtain ⟨-, hcc, -, -⟩ := canPlace_true_parts h
  have := checkConflicts_true_mem hcc (i, word.get ⟨i, hi⟩)
    (mem_idxChars.mpr ⟨i, by simp, by simp⟩)
  simpa using this

/-! ## Driver monotonicity of `placedWords` -/

theorem tryPlaceEntry_extends {g : CrosswordGrid} {pc : Nat} {e : Entry}
    {g' : CrosswordGrid} {pc' : Nat} (h : tryPlaceEntry g pc e = .ok (g', pc')) :
    ∃ tail, g'.placedWords = g.placedWords ++ tail := by
  unfold tryPlaceEntry at h
  split at h
  · simp only [Except.ok.injEq, Prod.mk.injEq] at h
    exact ⟨[], by rw [← h.1]; simp⟩
  · split at h
    · simp at h
    · split at h
      · simp only [Except.ok.injEq, Prod.mk.injEq] at h
        exact ⟨[], by rw [← h.1]; simp⟩
      · simp only [Except.ok.injEq, Prod.mk.injEq] at h
        obtain ⟨h1, h2⟩ := h
        subst h1
        exact ⟨_, place_placedWords _ _ _ _ _ _ _⟩

theorem passLoop_extends :
    ∀ (entries : List Entry) (g : CrosswordGrid) (pc : Nat)
      (g' : CrosswordGrid) (pc' : Nat),
    passLoop g pc entries = .ok (g', pc') →
    ∃ tail, g'.placedWords = g.placedWords ++ tail := by
  intro entries
  induction entries with
  | nil =>
    intro g pc g' pc' h
    simp only [passLoop, Except.ok.injEq, Prod.mk.injEq] at h
    exact ⟨[], by rw [← h.1]; simp⟩
  | cons e rest ih =>
    intro g pc g' pc' h
    rw [passLoop] at h
    split at h
    · simp at h
    · next g1 pc1 h1 =>
      obtain ⟨t1, ht1⟩ := tryPlaceEntry_extends h1
      obtain ⟨t2, ht2⟩ := ih _ _ _ _ h
      exact ⟨t1 ++ t2, by rw [ht2, ht1, List.append_assoc]⟩

theorem passes_extends :
    ∀ (k : Nat) (entries : List Entry) (g : CrosswordGrid) (pc : Nat)
      (g' : CrosswordGrid) (pc' : Nat),
    passes g pc entries k = .ok (g', pc') →
    ∃ tail, g'.placedWords = g.placedWords ++ tail := by
  intro k
  induction k with
  | zero =>
    intro entries g pc g' pc' h
    simp only [passes, Except.ok.injEq, Prod.mk.injEq] at h
    exact ⟨[], by rw [← h.1]; simp⟩
  | succ k ih =>
    intro entries g pc g' pc' h
    rw [passes] at h
    split at h
    · simp at h
    · next g1 pc1 h1 =>
      obtain ⟨t1, ht1⟩ := passLoop_extends _ _ _ _ _ h1
      obtain ⟨t2, ht2⟩ := ih _ _ _ _ _ h
      exact ⟨t1 ++ t2, by rw [ht2, ht1, List.append_assoc]⟩

/-! ## C9: the frame contract of `place` -/

/-- C9: `place` appends exactly one record (leaving every earlier record
in place, so `placedWords` never shrinks — parts 1 and 5, the latter over
any whole multi-pass driver segment), writes letters exactly on the
word's run (parts 2 and 3: cells off the run are untouched, run cell `i`
holds `word[i]`), and under the `canPlace` precondition each run cell was
previously empty or already held the same letter (part 4). -/
theorem C9_place_frame :
    (∀ (g : CrosswordGrid) (word : List Char) (row col : Int) (dir : Direction)
       (clue : String) (number : Nat),
      (place g word row col dir clue number).placedWords =
        g.placedWords ++ [{ answer := word, clue := clue, row := row, col := col,
                            direction := dir, number := number }]) ∧
    (∀ (g : CrosswordGrid) (word : List Char) (row col : Int) (dir : Direction)
       (clue : String) (number : Nat) (r c : Int),
      (∀ i, i < word.length → cellPos row col dir i ≠ (r, c)) →
      (place g word row col dir clue number).cells r c = g.cells r c) ∧
    (∀ (g : CrosswordGrid) (word : List Char) (row col : Int) (dir : Direction)
       (clue : String) (number : Nat) (i : Nat) (hi : i < word.length),
      (place g word row col dir clue number).cells (cellPos row col dir i).1
        (cellPos row col dir i).2 = .letter (word.get ⟨i, hi⟩)) ∧
    (∀ (g : CrosswordGrid) (word : List Char) (row col : Int) (dir : Direction),
      canPlace g word row col dir = .ok true →
      ∀ (i : Nat) (hi : i < word.length),
        readCell g (cellPos row col dir i).1 (cellPos row col dir i).2 = .ok .empty ∨
        readCell g (cellPos row col dir i).1 (cellPos row col dir i).2 =
          .ok (.letter (word.get ⟨i, hi⟩))) ∧
    (∀ (g : CrosswordGrid) (pc : Nat) (entries : List Entry) (k : Nat)
       (g' : CrosswordGrid) (pc' : Nat),
      passes g pc entries k = .ok (g', pc') →
      ∃ tail, g'.placedWords = g.placedWords ++ tail) :=
  ⟨place_placedWords,
   fun _ _ _ _ _ _ _ _ _ h => place_cells_off h,
   fun _ _ _ _ _ _ _ => place_cells_run,
   fun _ _ _ _ _ => canPlace_true_run_cells,
   fun g pc entries k g' pc' => passes_extends k entries g pc g' pc'⟩


/-! ## No-throw lemmas: `canPlace` never throws when the word-axis row
coordinates stay inside `[0, size)` -/

theorem checkConflicts_noThrow (g : CrosswordGrid) (row col : Int) (dir : Direction) :
    ∀ (l : List (Nat × Char)),
    (∀ p ∈ l, 0 ≤ (cellPos row col dir p.1).1 ∧
        (cellPos row col dir p.1).1 < (g.size : Int)) →
    ∃ b, checkConflicts g row col dir l = .ok b := by
  intro l
  induction l with
  | nil => intro _; exact ⟨true, rfl⟩
  | cons hd tl ih =>
    intro hmem
    obtain ⟨i, ch⟩ := hd
    have hr := hmem (i, ch) (List.mem_cons_self _ _)
    rw [checkConflicts, readCell_in_range hr.1 hr.2]
    cases hc : g.cells (cellPos row col dir i).1 (cellPos row col dir i).2 with
    | undef => exact ⟨false, rfl⟩
    | empty => exact ih fun p hp => hmem p (List.mem_cons_of_mem _ hp)
    | letter ch2 =>
      by_cases he : ch2 = ch
      · show ∃ b, (if ch2 = ch then checkConflicts g row col dir tl
          else Except.ok false) = Except.ok b
        rw [if_pos he]
        exact ih fun p hp => hmem p (List.mem_cons_of_mem _ hp)
      · show ∃ b, (if ch2 = ch then checkConflicts g row col dir tl
          else Except.ok false) = Except.ok b
        rw [if_neg he]
        exact ⟨false, rfl⟩

theorem adjProbe_noThrow (g : CrosswordGrid) (guard : Bool) (nr nc pr pc2 : Int)
    (i : Nat) (hn : guard = true → 0 ≤ nr ∧ nr < (g.size : Int))
    (hp : guard = true → 0 < i → 0 ≤ pr ∧ pr < (g.size : Int)) :
    ∃ b, adjProbe g guard nr nc pr pc2 i = .ok b := by
  cases hg : guard with
  | false => exact ⟨true, by simp [adjProbe]⟩
  | true =>
    subst hg
    unfold adjProbe
    rw [if_pos rfl, readCell_in_range (hn rfl).1 (hn rfl).2]
    show ∃ b,
      (if g.cells nr nc ≠ Cell.empty then
        (if 0 < i then
          (match readCell g pr pc2 with
           | Except.error e => Except.error e
           | Except.ok pv =>
             if pv = Cell.empty then Except.ok false else Except.ok true)
         else Except.ok true)
       else Except.ok true) = Except.ok b
    by_cases hnb : g.cells nr nc = .empty
    · rw [if_neg (show ¬(g.cells nr nc ≠ Cell.empty) by simp [hnb])]
      exact ⟨true, rfl⟩
    · rw [if_pos hnb]
      by_cases hi : 0 < i
      · rw [if_pos hi, readCell_in_range (hp rfl hi).1 (hp rfl hi).2]
        show ∃ b,
          (if g.cells pr pc2 = Cell.empty then Except.ok false
           else Except.ok true) = Except.ok b
        by_cases hpv : g.cells pr pc2 = .empty
        · rw [if_pos hpv]; exact ⟨false, rfl⟩
        · rw [if_neg hpv]; exact ⟨true, rfl⟩
      · rw [if_neg hi]
        exact ⟨true, rfl⟩

theorem adjCheckAt_noThrow_down {g : CrosswordGrid} {row col : Int} {i : Nat}
    (h1 : 0 ≤ row) (h2 : row + (i : Int) < (g.size : Int)) :
    ∃ b, adjCheckAt g row col .down i = .ok b := by
  simp only [adjCheckAt]
  rw [readCell_in_range (by omega) h2]
  show ∃ b,
    (if g.cells (row + (i : Int)) col = Cell.empty then
      (match adjProbe g (decide (0 < col)) (row + (i : Int)) (col - 1)
          (row + (i : Int) - 1) col i with
       | Except.error e => Except.error e
       | Except.ok false => Except.ok false
       | Except.ok true =>
         adjProbe g (decide (col < (g.size : Int) - 1)) (row + (i : Int)) (col + 1)
           (row + (i : Int) - 1) col i)
     else Except.ok true) = Except.ok b
  by_cases hc : g.cells (row + (i : Int)) col = .empty
  · rw [if_pos hc]
    obtain ⟨b1, hb1⟩ := adjProbe_noThrow g (decide (0 < col))
      (row + (i : Int)) (col - 1) (row + (i : Int) - 1) col i
      (fun _ => ⟨by omega, h2⟩) (fun _ hi => ⟨by omega, by omega⟩)
    rw [hb1]
    cases b1 with
    | false => exact ⟨false, rfl⟩
    | true =>
      obtain ⟨b2, hb2⟩ := adjProbe_noThrow g (decide (col < (g.size : Int) - 1))
        (row + (i : Int)) (col + 1) (row + (i : Int) - 1) col i
        (fun _ => ⟨by omega, h2⟩) (fun _ hi => ⟨by omega, by omega⟩)
      exact ⟨b2, hb2⟩
  · rw [if_neg hc]
    exact ⟨true, rfl⟩

theorem adjCheckAt_noThrow_across {g : CrosswordGrid} {row col : Int} {i : Nat}
    (h1 : 0 ≤ row) (h2 : row < (g.size : Int)) :
    ∃ b, adjCheckAt g row col .across i = .ok b := by
  simp only [adjCheckAt]
  rw [readCell_in_range h1 h2]
  show ∃ b,
    (if g.cells row (col + (i : Int)) = Cell.empty then
      (match adjProbe g (decide (0 < row)) (row - 1) (col + (i : Int))
          row (col + (i : Int) - 1) i with
       | Except.error e => Except.error e
       | Except.ok false => Except.ok false
       | Except.ok true =>
         adjProbe g (decide (row < (g.size : Int) - 1)) (row + 1) (col + (i : Int))
           row (col + (i : Int) - 1) i)
     else Except.ok true) = Except.ok b
  by_cases hc : g.cells row (col + (i : Int)) = .empty
  · rw [if_pos hc]
    obtain ⟨b1, hb1⟩ := adjProbe_noThrow g (decide (0 < row)) (row - 1)
      (col + (i : Int)) row (col + (i : Int) - 1) i
      (fun hg => ⟨by simp at hg; omega, by omega⟩) (fun _ _ => ⟨h1, h2⟩)
    rw [hb1]
    cases b1 with
    | false => exact ⟨false, rfl⟩
    | true =>
      obtain ⟨b2, hb2⟩ := adjProbe_noThrow g (decide (row < (g.size : Int) - 1))
        (row + 1) (col + (i : Int)) row (col + (i : Int) - 1) i
        (fun hg => ⟨by omega, by simp at hg; omega⟩) (fun _ _ => ⟨h1, h2⟩)
      exact ⟨b2, hb2⟩
  · rw [if_neg hc]
    exact ⟨true, rfl⟩

theorem adjLoop_noThrow (g : CrosswordGrid) (row col : Int) (dir : Direction) :
    ∀ (l : List Nat),
    (∀ i ∈ l, ∃ b, adjCheckAt g row col dir i = .ok b) →
    ∃ b, adjLoop g row col dir l = .ok b := by
  intro l
  induction l with
  | nil => intro _; exact ⟨true, rfl⟩
  | cons hd tl ih =>
    intro hmem
    obtain ⟨b1, hb1⟩ := hmem hd (List.mem_cons_self _ _)
    rw [adjLoop, hb1]
    cases b1 with
    | false => exact ⟨false, rfl⟩
    | true => exact ih fun i hi => hmem i (List.mem_cons_of_mem _ hi)

theorem endsAfterDown_noThrow {g : CrosswordGrid} {len row col : Int}
    (h1 : 0 ≤ row) (h0 : 0 ≤ len) : ∃ b, endsAfterDown g len row col = .ok b := by
  unfold endsAfterDown
  by_cases hg : row + len < (g.size : Int)
  · rw [if_pos hg, readCell_in_range (by omega) (by omega)]
    show ∃ b,
      (if g.cells (row + len) col ≠ Cell.empty then Except.ok false
       else Except.ok true) = Except.ok b
    by_cases hc : g.cells (row + len) col = .empty
    · rw [if_neg (show ¬(g.cells (row + len) col ≠ Cell.empty) by simp [hc])]
      exact ⟨true, rfl⟩
    · rw [if_pos hc]; exact ⟨false, rfl⟩
  · rw [if_neg hg]; exact ⟨true, rfl⟩

theorem endsCheck_down_noThrow {g : CrosswordGrid} {len row col : Int}
    (h1 : 0 ≤ row) (h2 : row ≤ (g.size : Int)) (h0 : 0 ≤ len) :
    ∃ b, endsCheck g len row col .down = .ok b := by
  simp only [endsCheck]
  by_cases hg : 0 < row
  · rw [if_pos hg, readCell_in_range (by omega) (by omega)]
    show ∃ b,
      (if g.cells (row - 1) col ≠ Cell.empty then Except.ok false
       else endsAfterDown g len row col) = Except.ok b
    by_cases hc : g.cells (row - 1) col = .empty
    · rw [if_neg (show ¬(g.cells (row - 1) col ≠ Cell.empty) by simp [hc])]
      exact endsAfterDown_noThrow h1 h0
    · rw [if_pos hc]; exact ⟨false, rfl⟩
  · rw [if_neg hg]
    exact endsAfterDown_noThrow h1 h0

theorem endsAfterAcross_noThrow {g : CrosswordGrid} {len row col : Int}
    (h1 : 0 ≤ row) (h2 : row < (g.size : Int)) :
    ∃ b, endsAfterAcross g len row col = .ok b := by
  unfold endsAfterAcross
  by_cases hg : col + len < (g.size : Int)
  · rw [if_pos hg, readCell_in_range h1 h2]
    show ∃ b,
      (if g.cells row (col + len) ≠ Cell.empty then Except.ok false
       else Except.ok true) = Except.ok b
    by_cases hc : g.cells row (col + len) = .empty
    · rw [if_neg (show ¬(g.cells row (col + len) ≠ Cell.empty) by simp [hc])]
      exact ⟨true, rfl⟩
    · rw [if_pos hc]; exact ⟨false, rfl⟩
  · rw [if_neg hg]; exact ⟨true, rfl⟩

theorem endsCheck_across_noThrow {g : CrosswordGrid} {len row col : Int}
    (h1 : 0 ≤ row) (h2 : row < (g.size : Int)) :
    ∃ b, endsCheck g len row col .across = .ok b := by
  simp only [endsCheck]
  by_cases hg : 0 < col
  · rw [if_pos hg, readCell_in_range h1 h2]
    show ∃ b,
      (if g.cells row (col - 1) ≠ Cell.empty then Except.ok false
       else endsAfterAcross g len row col) = Except.ok b
    by_cases hc : g.cells row (col - 1) = .empty
    · rw [if_neg (show ¬(g.cells row (col - 1) ≠ Cell.empty) by simp [hc])]
      exact endsAfterAcross_noThrow h1 h2
    · rw [if_pos hc]; exact ⟨false, rfl⟩
  · rw [if_neg hg]
    exact endsAfterAcross_noThrow h1 h2

theorem canPlace_down_noThrow (g : CrosswordGrid) (word : List Char)
    (row col : Int) (h1 : 0 ≤ row) :
    ∃ b, canPlace g word row col .down = .ok b := by
  rw [canPlace]
  by_cases hb : (g.size : Int) < row + (word.length : Int)
  · rw [if_pos (by simpa using hb)]
    exact ⟨false, rfl⟩
  · rw [if_neg (by simpa using hb)]
    obtain ⟨b1, hcc⟩ := checkConflicts_noThrow g row col .down (idxChars 0 word)
      (fun p hp => by
        have hlt := idxChars_lt hp
        simp only [cellPos]
        constructor
        · omega
        · have : (p.1 : Int) < (word.length : Int) := by exact_mod_cast (by omega)
          omega)
    rw [hcc]
    cases b1 with
    | false => exact ⟨false, rfl⟩
    | true =>
      obtain ⟨b2, hal⟩ := adjLoop_noThrow g row col .down (List.range word.length)
        (fun i hi => adjCheckAt_noThrow_down h1 (by
          have : (i : Int) < (word.length : Int) := by
            exact_mod_cast List.mem_range.mp hi
          omega))
      rw [hal]
      cases b2 with
      | false => exact ⟨false, rfl⟩
      | true => exact endsCheck_down_noThrow h1 (by omega) (Int.natCast_nonneg _)

theorem canPlace_across_noThrow (g : CrosswordGrid) (word : List Char)
    (row col : Int) (h1 : 0 ≤ row) (h2 : row < (g.size : Int)) :
    ∃ b, canPlace g word row col .across = .ok b := by
  rw [canPlace]
  by_cases hb : (g.size : Int) < col + (word.length : Int)
  · rw [if_pos (by simpa using hb)]
    exact ⟨false, rfl⟩
  · rw [if_neg (by simpa using hb)]
    obtain ⟨b1, hcc⟩ := checkConflicts_noThrow g row col .across (idxChars 0 word)
      (fun p hp => by simp only [cellPos]; exact ⟨h1, h2⟩)
    rw [hcc]
    cases b1 with
    | false => exact ⟨false, rfl⟩
    | true =>
      obtain ⟨b2, hal⟩ := adjLoop_noThrow g row col .across (List.range word.length)
        (fun i _ => adjCheckAt_noThrow_across h1 h2)
      rw [hal]
      cases b2 with
      | false => exact ⟨false, rfl⟩
      | true => exact endsCheck_across_noThrow h1 h2


/-! ## Consequences of `canPlace ... = .ok true` -/

theorem canPlace_across_true_row {g : CrosswordGrid} {word : List Char}
    {row col : Int} (h : canPlace g word row col .across = .ok true)
    (hw : word ≠ []) : 0 ≤ row ∧ row < (g.size : Int) := by
  obtain ⟨-, hcc, -, -⟩ := canPlace_true_parts h
  obtain ⟨w0, rest, rfl⟩ := List.exists_cons_of_ne_nil hw
  have hmem := checkConflicts_true_mem hcc (0, w0)
    (by rw [idxChars]; exact List.mem_cons_self _ _)
  rcases hmem with h' | h' <;>
  · obtain ⟨-, h1, h2⟩ := readCell_ok_inv h'
    exact ⟨by simpa [cellPos] using h1, by simpa [cellPos] using h2⟩

theorem canPlace_down_true_bound {g : CrosswordGrid} {word : List Char}
    {row col : Int} (h : canPlace g word row col .down = .ok true) :
    row + (word.length : Int) ≤ (g.size : Int) := by
  obtain ⟨hb, -, -, -⟩ := canPlace_true_parts h
  have hb' : ¬ (g.size : Int) < row + (word.length : Int) := by simpa using hb
  omega

theorem canPlace_down_true_row {g : CrosswordGrid} {word : List Char}
    {row col : Int} (h : canPlace g word row col .down = .ok true)
    (hw : word ≠ []) : 0 ≤ row ∧ row < (g.size : Int) := by
  obtain ⟨-, hcc, -, -⟩ := canPlace_true_parts h
  obtain ⟨w0, rest, rfl⟩ := List.exists_cons_of_ne_nil hw
  have hmem := checkConflicts_true_mem hcc (0, w0)
    (by rw [idxChars]; exact List.mem_cons_self _ _)
  rcases hmem with h' | h' <;>
  · obtain ⟨-, h1, h2⟩ := readCell_ok_inv h'
    exact ⟨by simpa [cellPos] using h1, by simpa [cellPos] using h2⟩

/-! ## `findIntersections` under the row invariant -/

theorem findIntersections_nil (g : CrosswordGrid) :
    findIntersections g [] = .ok [] := by
  unfold findIntersections
  suffices h : ∀ l, interLoopP g [] l = .ok [] from h _
  intro l
  induction l with
  | nil => rfl
  | cons placed rest ih =>
    rw [interLoopP,
      show interLoopI g [] placed (idxChars 0 []) = Except.ok [] from rfl, ih]
    rfl

theorem tryCandidateAcross_ok {g : CrosswordGrid} {word : List Char} {nr nc : Int}
    (h : 0 ≤ nr → ∃ b, canPlace g word nr nc .down = .ok b) :
    ∃ cs, tryCandidateAcross g word nr nc = .ok cs ∧
      ∀ c ∈ cs, 0 ≤ c.row ∧ 0 ≤ c.col ∧
        canPlace g word c.row c.col c.direction = .ok true := by
  unfold tryCandidateAcross
  by_cases hg : 0 ≤ nr ∧ 0 ≤ nc
  · rw [if_pos hg]
    obtain ⟨b, hb⟩ := h hg.1
    rw [hb]
    cases b with
    | true =>
      refine ⟨_, rfl, ?_⟩
      intro c hc
      rw [List.mem_singleton] at hc
      subst hc
      exact ⟨hg.1, hg.2, hb⟩
    | false => exact ⟨[], rfl, by intro c hc; cases hc⟩
  · rw [if_neg hg]
    exact ⟨[], rfl, by intro c hc; cases hc⟩

theorem tryCandidateDown_ok {g : CrosswordGrid} {word : List Char} {nr nc : Int}
    (h : 0 ≤ nr → ∃ b, canPlace g word nr nc .across = .ok b) :
    ∃ cs, tryCandidateDown g word nr nc = .ok cs ∧
      ∀ c ∈ cs, 0 ≤ c.row ∧ 0 ≤ c.col ∧
        canPlace g word c.row c.col c.direction = .ok true := by
  unfold tryCandidateDown
  by_cases hg : 0 ≤ nr ∧ 0 ≤ nc
  · rw [if_pos hg]
    obtain ⟨b, hb⟩ := h hg.1
    rw [hb]
    cases b with
    | true =>
      refine ⟨_, rfl, ?_⟩
      intro c hc
      rw [List.mem_singleton] at hc
      subst hc
      exact ⟨hg.1, hg.2, hb⟩
    | false => exact ⟨[], rfl, by intro c hc; cases hc⟩
  · rw [if_neg hg]
    exact ⟨[], rfl, by intro c hc; cases hc⟩

theorem tryCandidate_ok {g : CrosswordGrid} {word : List Char} {placed : PlacedWord}
    {i j : Nat} {wi pj : Char}
    (hA : placed.direction = .across → 0 ≤ placed.row ∧ placed.row < (g.size : Int))
    (hD : placed.direction = .down →
      0 ≤ placed.row ∧ placed.row + (placed.answer.length : Int) ≤ (g.size : Int))
    (hj : j < placed.answer.length) :
    ∃ cs, tryCandidate g word placed i j wi pj = .ok cs ∧
      ∀ c ∈ cs, 0 ≤ c.row ∧ 0 ≤ c.col ∧
        canPlace g word c.row c.col c.direction = .ok true := by
  unfold tryCandidate
  by_cases he : wi = pj
  · rw [if_pos he]
    cases hd : placed.direction with
    | across => exact tryCandidateAcross_ok fun hnr => canPlace_down_noThrow _ _ _ _ hnr
    | down =>
      refine tryCandidateDown_ok fun hnr => canPlace_across_noThrow _ _ _ _ hnr ?_
      obtain ⟨h1, h2⟩ := hD hd
      have : (j : Int) < (placed.answer.length : Int) := by exact_mod_cast hj
      omega
  · rw [if_neg he]
    exact ⟨[], rfl, by intro c hc; cases hc⟩

theorem interLoopJ_ok {g : CrosswordGrid} {word : List Char} {placed : PlacedWord}
    {i : Nat} {wi : Char}
    (hA : placed.direction = .across → 0 ≤ placed.row ∧ placed.row < (g.size : Int))
    (hD : placed.direction = .down →
      0 ≤ placed.row ∧ placed.row + (placed.answer.length : Int) ≤ (g.size : Int)) :
    ∀ (l : List (Nat × Char)), (∀ p ∈ l, p.1 < placed.answer.length) →
    ∃ cs, interLoopJ g word placed i wi l = .ok cs ∧
      ∀ c ∈ cs, 0 ≤ c.row ∧ 0 ≤ c.col ∧
        canPlace g word c.row c.col c.direction = .ok true := by
  intro l
  induction l with
  | nil => intro _; exact ⟨[], rfl, by intro c hc; cases hc⟩
  | cons hd tl ih =>
    intro hmem
    obtain ⟨j, pj⟩ := hd
    obtain ⟨cs1, h1, hp1⟩ := tryCandidate_ok hA hD (hmem (j, pj) (List.mem_cons_self _ _))
    obtain ⟨cs2, h2, hp2⟩ := ih fun p hp => hmem p (List.mem_cons_of_mem _ hp)
    rw [interLoopJ, h1, h2]
    refine ⟨cs1 ++ cs2, rfl, ?_⟩
    intro c hc
    rcases List.mem_append.mp hc with hc | hc
    · exact hp1 c hc
    · exact hp2 c hc

theorem interLoopI_ok {g : CrosswordGrid} {word : List Char} {placed : PlacedWord}
    (hA : placed.direction = .across → 0 ≤ placed.row ∧ placed.row < (g.size : Int))
    (hD : placed.direction = .down →
      0 ≤ placed.row ∧ placed.row + (placed.answer.length : Int) ≤ (g.size : Int)) :
    ∀ (l : List (Nat × Char)),
    ∃ cs, interLoopI g word placed l = .ok cs ∧
      ∀ c ∈ cs, 0 ≤ c.row ∧ 0 ≤ c.col ∧
        canPlace g word c.row c.col c.direction = .ok true := by
  intro l
  induction l with
  | nil => exact ⟨[], rfl, by intro c hc; cases hc⟩
  | cons hd tl ih =>
    obtain ⟨i, wi⟩ := hd
    obtain ⟨cs1, h1, hp1⟩ := interLoopJ_ok hA hD (idxChars 0 placed.answer)
      (fun p hp => by have := idxChars_lt hp; omega)
    obtain ⟨cs2, h2, hp2⟩ := ih
    rw [interLoopI, h1, h2]
    refine ⟨cs1 ++ cs2, rfl, ?_⟩
    intro c hc
    rcases List.mem_append.mp hc with hc | hc
    · exact hp1 c hc
    · exact hp2 c hc

theorem interLoopP_ok {g : CrosswordGrid} {word : List Char} :
    ∀ {l : List PlacedWord},
    (∀ placed ∈ l,
      (placed.direction = .across → 0 ≤ placed.row ∧ placed.row < (g.size : Int)) ∧
      (placed.direction = .down →
        0 ≤ placed.row ∧ placed.row + (placed.answer.length : Int) ≤ (g.size : Int))) →
    ∃ cs, interLoopP g word l = .ok cs ∧
      ∀ c ∈ cs, 0 ≤ c.row ∧ 0 ≤ c.col ∧
        canPlace g word c.row c.col c.direction = .ok true := by
  intro l
  induction l with
  | nil => intro _; exact ⟨[], rfl, by intro c hc; cases hc⟩
  | cons placed tl ih =>
    intro hmem
    obtain ⟨h1p, h2p⟩ := hmem placed (List.mem_cons_self _ _)
    obtain ⟨cs1, h1, hp1⟩ := interLoopI_ok h1p h2p (idxChars 0 word)
    obtain ⟨cs2, h2, hp2⟩ := ih fun p hp => hmem p (List.mem_cons_of_mem _ hp)
    rw [interLoopP, h1, h2]
    refine ⟨cs1 ++ cs2, rfl, ?_⟩
    intro c hc
    rcases List.mem_append.mp hc with hc | hc
    · exact hp1 c hc
    · exact hp2 c hc

theorem findIntersections_ok {g : CrosswordGrid} (word : List Char)
    (hR : RowsOk g) :
    ∃ cs, findIntersections g word = .ok cs ∧
      ∀ c ∈ cs, 0 ≤ c.row ∧ 0 ≤ c.col ∧
        canPlace g word c.row c.col c.direction = .ok true :=
  interLoopP_ok fun placed hp => hR placed hp

/-! ## Permutation lemmas for the three stable sorts -/

theorem insertByDist_perm (b : Bounds) (x : Candidate) :
    ∀ l, List.Perm (insertByDist b x l) (x :: l) := by
  intro l
  induction l with
  | nil => exact List.Perm.refl _
  | cons y ys ih =>
    rw [insertByDist]
    by_cases hc : dist2 b x ≤ dist2 b y
    · rw [if_pos hc]
    · rw [if_neg hc]
      exact (ih.cons y).trans (List.Perm.swap x y ys)

theorem sortCandidates_perm (b : Bounds) (l : List Candidate) :
    List.Perm (sortCandidates b l) l := by
  induction l with
  | nil => exact List.Perm.refl _
  | cons x xs ih =>
    show List.Perm (insertByDist b x (sortCandidates b xs)) (x :: xs)
    exact (insertByDist_perm b x _).trans (ih.cons x)

theorem insertByLen_perm (x : Entry) :
    ∀ l, List.Perm (insertByLen x l) (x :: l) := by
  intro l
  induction l with
  | nil => exact List.Perm.refl _
  | cons y ys ih =>
    rw [insertByLen]
    by_cases hc : y.answer.length ≤ x.answer.length
    · rw [if_pos hc]
    · rw [if_neg hc]
      exact (ih.cons y).trans (List.Perm.swap x y ys)

theorem sortEntries_perm (l : List Entry) : List.Perm (sortEntries l) l := by
  induction l with
  | nil => exact List.Perm.refl _
  | cons x xs ih =>
    show List.Perm (insertByLen x (sortEntries xs)) (x :: xs)
    exact (insertByLen_perm x _).trans (ih.cons x)

theorem insertByNumber_perm (x : ClueEntry) :
    ∀ l, List.Perm (insertByNumber x l) (x :: l) := by
  intro l
  induction l with
  | nil => exact List.Perm.refl _
  | cons y ys ih =>
    rw [insertByNumber]
    by_cases hc : x.number ≤ y.number
    · rw [if_pos hc]
    · rw [if_neg hc]
      exact (ih.cons y).trans (List.Perm.swap x y ys)

theorem sortByNumber_perm (l : List ClueEntry) :
    List.Perm (sortByNumber l) l := by
  induction l with
  | nil => exact List.Perm.refl _
  | cons x xs ih =>
    show List.Perm (insertByNumber x (sortByNumber xs)) (x :: xs)
    exact (insertByNumber_perm x _).trans (ih.cons x)

/-! ## One driver step -/

theorem place_size (g : CrosswordGrid) (word : List Char) (row col : Int)
    (dir : Direction) (clue : String) (number : Nat) :
    (place g word row col dir clue number).size = g.size := rfl

theorem tryPlaceEntry_ok {g : CrosswordGrid} (pc : Nat) (e : Entry)
    (hR : RowsOk g) :
    ∃ g' pc', tryPlaceEntry g pc e = .ok (g', pc') ∧ RowsOk g' ∧
      ((g' = g ∧ pc' = pc) ∨
       (¬ (∃ w ∈ g.placedWords, w.answer = e.answer) ∧ e.answer ≠ [] ∧
        ∃ cand : Candidate, 0 ≤ cand.row ∧ 0 ≤ cand.col ∧
          canPlace g e.answer cand.row cand.col cand.direction = .ok true ∧
          g' = place g e.answer cand.row cand.col cand.direction e.clue (pc + 1) ∧
          pc' = pc + 1)) := by
  by_cases hskip : g.placedWords.any (fun w => decide (w.answer = e.answer)) = true
  · refine ⟨g, pc, ?_, hR, Or.inl ⟨rfl, rfl⟩⟩
    unfold tryPlaceEntry
    rw [if_pos hskip]
  · obtain ⟨cands, hfi, hprops⟩ := findIntersections_ok e.answer hR
    have hstep : tryPlaceEntry g pc e =
        (match sortCandidates (getBounds g) cands with
         | [] => Except.ok (g, pc)
         | best :: _ =>
           Except.ok (place g e.answer best.row best.col best.direction e.clue
             (pc + 1), pc + 1)) := by
      unfold tryPlaceEntry
      rw [if_neg hskip, hfi]
    cases hsc : sortCandidates (getBounds g) cands with
    | nil =>
      rw [hsc] at hstep
      exact ⟨g, pc, hstep, hR, Or.inl ⟨rfl, rfl⟩⟩
    | cons best rest' =>
      rw [hsc] at hstep
      have hbest : best ∈ cands := by
        have hmem : best ∈ sortCandidates (getBounds g) cands := by
          rw [hsc]; exact List.mem_cons_self _ _
        exact (sortCandidates_perm _ _).mem_iff.mp hmem
      obtain ⟨hrow, hcol, hcp⟩ := hprops best hbest
      have hnonempty : e.answer ≠ [] := by
        intro hnil
        rw [hnil, findIntersections_nil] at hfi
        simp only [Except.ok.injEq] at hfi
        rw [← hfi] at hsc
        simp [sortCandidates] at hsc
      refine ⟨place g e.answer best.row best.col best.direction e.clue (pc + 1),
        pc + 1, hstep, ?_, ?_⟩
      · intro w hw
        rw [place_placedWords] at hw
        rcases List.mem_append.mp hw with hw | hw
        · exact hR w hw
        · rw [List.mem_singleton] at hw
          subst hw
          refine ⟨?_, ?_⟩
          · intro hdir
            have hd2 : best.direction = Direction.across := hdir
            rw [hd2] at hcp
            exact @canPlace_across_true_row g _ _ _ hcp hnonempty
          · intro hdir
            have hd2 : best.direction = Direction.down := hdir
            rw [hd2] at hcp
            exact ⟨hrow, @canPlace_down_true_bound g _ _ _ hcp⟩
      · refine Or.inr ⟨?_, hnonempty, best, hrow, hcol, hcp, rfl, rfl⟩
        rintro ⟨w, hw, hans⟩
        exact hskip (List.any_eq_true.mpr ⟨w, hw, by simp [hans]⟩)


/-! ## C10: two entries can never reach three placed words -/

theorem tryPlaceEntry_two_bound {g : CrosswordGrid} (pc : Nat) {e : Entry}
    (hR : RowsOk g) (hlen : g.placedWords.length ≤ 2)
    (htwo : g.placedWords.length = 2 → ∃ w ∈ g.placedWords, w.answer = e.answer) :
    ∃ g' pc', tryPlaceEntry g pc e = .ok (g', pc') ∧ RowsOk g' ∧
      g'.placedWords.length ≤ 2 ∧
      (g'.placedWords.length = 2 → ∃ w ∈ g'.placedWords, w.answer = e.answer) := by
  obtain ⟨g', pc', heq, hR', hcase⟩ := tryPlaceEntry_ok pc e hR
  refine ⟨g', pc', heq, hR', ?_⟩
  rcases hcase with ⟨rfl, rfl⟩ | ⟨hno, -, cand, -, -, -, rfl, rfl⟩
  · exact ⟨hlen, htwo⟩
  · have hne2 : g.placedWords.length ≠ 2 := fun h2 => hno (htwo h2)
    constructor
    · rw [place_placedWords, List.length_append, List.length_singleton]
      omega
    · intro _
      rw [place_placedWords]
      exact ⟨_, List.mem_append_right _ (List.mem_singleton_self _), rfl⟩

theorem passLoop_two_bound {g : CrosswordGrid} (pc : Nat) {e : Entry}
    (hR : RowsOk g) (hlen : g.placedWords.length ≤ 2)
    (htwo : g.placedWords.length = 2 → ∃ w ∈ g.placedWords, w.answer = e.answer) :
    ∃ g' pc', passLoop g pc [e] = .ok (g', pc') ∧ RowsOk g' ∧
      g'.placedWords.length ≤ 2 ∧
      (g'.placedWords.length = 2 → ∃ w ∈ g'.placedWords, w.answer = e.answer) := by
  obtain ⟨g', pc', heq, props⟩ := tryPlaceEntry_two_bound pc hR hlen htwo
  refine ⟨g', pc', ?_, props⟩
  rw [passLoop, heq]
  rfl

theorem passes_two_bound (k : Nat) :
    ∀ {g : CrosswordGrid} {pc : Nat} {e : Entry},
    RowsOk g → g.placedWords.length ≤ 2 →
    (g.placedWords.length = 2 → ∃ w ∈ g.placedWords, w.answer = e.answer) →
    ∃ g' pc', passes g pc [e] k = .ok (g', pc') ∧
      g'.placedWords.length ≤ 2 := by
  induction k with
  | zero =>
    intro g pc e hR hlen _
    exact ⟨g, pc, rfl, hlen⟩
  | succ k ih =>
    intro g pc e hR hlen htwo
    obtain ⟨g1, pc1, heq1, hR1, hlen1, htwo1⟩ := passLoop_two_bound pc hR hlen htwo
    obtain ⟨g', pc', heq', hlen'⟩ := ih hR1 hlen1 htwo1
    refine ⟨g', pc', ?_, hlen'⟩
    rw [passes, heq1]
    exact heq'

/-- C10: with exactly 2 entries the driver can place at most 2 words (the
anchor plus at most one crossing word — an entry whose answer is already
placed is skipped on later passes), so `generateCrosswordLayout` always
fails with the minimum-3-words error. -/
theorem C10_two_entries_always_fail (entries : List Entry)
    (h : entries.length = 2) :
    generateCrosswordLayout entries = .error (.jsError msgCouldNotPlace) ∧
    ∀ g, runDriver entries = .ok g → g.placedWords.length ≤ 2 := by
  have hsort : (sortEntries entries).length = 2 := by
    rw [(sortEntries_perm entries).length_eq, h]
  obtain ⟨a, rest, hae⟩ : ∃ a rest, sortEntries entries = a :: rest := by
    cases hse : sortEntries entries with
    | nil => rw [hse] at hsort; simp at hsort
    | cons a rest => exact ⟨a, rest, rfl⟩
  obtain ⟨b, hbe⟩ : ∃ b, rest = [b] := by
    rw [hae] at hsort
    simp only [List.length_cons, Nat.succ.injEq] at hsort
    exact List.length_eq_one.mp hsort
  have hR0 : RowsOk (place (emptyGrid 20) a.answer 2 2 .across a.clue 1) := by
    intro w hw
    rw [place_placedWords] at hw
    simp only [emptyGrid, List.nil_append, List.mem_singleton] at hw
    subst hw
    refine ⟨fun _ => ⟨?_, ?_⟩, fun hdir => nomatch hdir⟩
    · show (0 : Int) ≤ 2
      norm_num
    · show (2 : Int) < ((20 : Nat) : Int)
      norm_num
  have hlen0 : (place (emptyGrid 20) a.answer 2 2 .across a.clue 1).placedWords.length ≤ 2 := by
    rw [place_placedWords]
    simp [emptyGrid]
  have htwo0 : (place (emptyGrid 20) a.answer 2 2 .across a.clue 1).placedWords.length = 2 →
      ∃ w ∈ (place (emptyGrid 20) a.answer 2 2 .across a.clue 1).placedWords,
        w.answer = b.answer := by
    intro h2
    rw [place_placedWords] at h2
    simp [emptyGrid] at h2
  obtain ⟨gf, pcf, hpass, hlenf⟩ := passes_two_bound 3 hR0 hlen0 htwo0
  have hdr : runDriver entries = .ok gf := by
    unfold runDriver
    rw [hae, hbe]
    show (match passes (place (emptyGrid 20) a.answer 2 2 .across a.clue 1) 1 [b] 3 with
      | .error err => (Except.error err : Except JSError CrosswordGrid)
      | .ok (g, _) => .ok g) = .ok gf
    rw [hpass]
  constructor
  · rw [generateCrosswordLayout, if_neg (by omega), hdr]
    exact if_pos (by omega)
  · intro g hg
    rw [hdr] at hg
    simp only [Except.ok.injEq] at hg
    rw [← hg]
    exact hlenf

/-- Witness for `C10_two_entries_always_fail` on a concrete 2-entry
list. -/
theorem C10_two_entries_always_fail_witness :
    generateCrosswordLayout
      [{ answer := ['C','A','T'], clue := "c1" },
       { answer := ['D','O','G'], clue := "c2" }] =
      .error (.jsError msgCouldNotPlace) ∧
    ∀ g, runDriver
      [{ answer := ['C','A','T'], clue := "c1" },
       { answer := ['D','O','G'], clue := "c2" }] = .ok g →
      g.placedWords.length ≤ 2 :=
  C10_two_entries_always_fail _ rfl


/-! ## C8: `findIntersections` against the specification's enumeration -/

theorem tryCandidate_spec {g : CrosswordGrid} {word : List Char}
    {placed : PlacedWord} {i j : Nat} {wi pj : Char}
    (hD : placed.direction = .down →
      0 ≤ placed.row ∧ placed.row + (placed.answer.length : Int) ≤ (g.size : Int))
    (hj : j < placed.answer.length) :
    tryCandidate g word placed i j wi pj =
      .ok (if wi = pj then specEmit g word placed i j else []) := by
  by_cases he : wi = pj
  · rw [if_pos he]
    unfold tryCandidate
    rw [if_pos he]
    cases hd : placed.direction with
    | across =>
      unfold specEmit specAligned
      rw [hd]
      show tryCandidateAcross g word (placed.row - (i : Int)) (placed.col + (j : Int)) = _
      unfold tryCandidateAcross
      by_cases hg : 0 ≤ placed.row - (i : Int) ∧ 0 ≤ placed.col + (j : Int)
      · rw [if_pos hg]
        obtain ⟨b, hb⟩ := canPlace_down_noThrow g word _
          (placed.col + (j : Int)) hg.1
        rw [hb]
        cases b with
        | true => rw [if_pos ⟨hg.1, hg.2, hb⟩]
        | false =>
          rw [if_neg]
          rintro ⟨-, -, hcp⟩
          rw [hb] at hcp
          simp at hcp
      · rw [if_neg hg]
        rw [if_neg]
        rintro ⟨h1, h2, -⟩
        exact hg ⟨h1, h2⟩
    | down =>
      unfold specEmit specAligned
      rw [hd]
      show tryCandidateDown g word (placed.row + (j : Int)) (placed.col - (i : Int)) = _
      unfold tryCandidateDown
      by_cases hg : 0 ≤ placed.row + (j : Int) ∧ 0 ≤ placed.col - (i : Int)
      · rw [if_pos hg]
        obtain ⟨h1, h2⟩ := hD hd
        obtain ⟨b, hb⟩ := canPlace_across_noThrow g word _
          (placed.col - (i : Int)) hg.1
          (by
            have : (j : Int) < (placed.answer.length : Int) := by exact_mod_cast hj
            omega)
        rw [hb]
        cases b with
        | true => rw [if_pos ⟨hg.1, hg.2, hb⟩]
        | false =>
          rw [if_neg]
          rintro ⟨-, -, hcp⟩
          rw [hb] at hcp
          simp at hcp
      · rw [if_neg hg]
        rw [if_neg]
        rintro ⟨h1, h2, -⟩
        exact hg ⟨h1, h2⟩
  · rw [if_neg he]
    unfold tryCandidate
    rw [if_neg he]

theorem interLoopJ_spec {g : CrosswordGrid} {word : List Char}
    {placed : PlacedWord} {i : Nat} {wi : Char}
    (hD : placed.direction = .down →
      0 ≤ placed.row ∧ placed.row + (placed.answer.length : Int) ≤ (g.size : Int)) :
    ∀ {l : List (Nat × Char)}, (∀ p ∈ l, p.1 < placed.answer.length) →
    interLoopJ g word placed i wi l =
      .ok ((l.map fun q =>
        if wi = q.2 then specEmit g word placed i q.1 else []).flatten) := by
  intro l
  induction l with
  | nil => intro _; rfl
  | cons hd tl ih =>
    intro hmem
    obtain ⟨j, pj⟩ := hd
    rw [interLoopJ, tryCandidate_spec hD (hmem (j, pj) (List.mem_cons_self _ _)),
      ih fun p hp => hmem p (List.mem_cons_of_mem _ hp)]
    rfl

theorem interLoopI_spec {g : CrosswordGrid} {word : List Char}
    {placed : PlacedWord}
    (hD : placed.direction = .down →
      0 ≤ placed.row ∧ placed.row + (placed.answer.length : Int) ≤ (g.size : Int)) :
    ∀ {l : List (Nat × Char)},
    interLoopI g word placed l =
      .ok ((l.map fun p =>
        ((idxChars 0 placed.answer).map fun q =>
          if p.2 = q.2 then specEmit g word placed p.1 q.1 else []).flatten).flatten) := by
  intro l
  induction l with
  | nil => rfl
  | cons hd tl ih =>
    obtain ⟨i, wi⟩ := hd
    rw [interLoopI,
      interLoopJ_spec hD (fun p hp => by have := idxChars_lt hp; omega), ih]
    rfl

theorem interLoopP_spec {g : CrosswordGrid} {word : List Char} :
    ∀ {l : List PlacedWord},
    (∀ placed ∈ l, placed.direction = .down →
      0 ≤ placed.row ∧ placed.row + (placed.answer.length : Int) ≤ (g.size : Int)) →
    interLoopP g word l = .ok ((l.map fun placed => specPairs g word placed).flatten) := by
  intro l
  induction l with
  | nil => intro _; rfl
  | cons placed tl ih =>
    intro hmem
    rw [interLoopP, interLoopI_spec (hmem placed (List.mem_cons_self _ _)),
      ih fun p hp => hmem p (List.mem_cons_of_mem _ hp)]
    rfl

/-- C8: `findIntersections` computes exactly the candidate enumeration of
§4.3 of the spec: one candidate per matching letter pair `(i, j)` per
placed word (duplicates kept, in loop order), aligned perpendicular to the
placed word, emitted exactly when row and col are non-negative and
`canPlace` accepts; and every emitted candidate indeed has non-negative
coordinates and satisfies `canPlace`.  The row-sanity hypothesis `RowsOk`
holds for every grid the driver builds. -/
theorem C8_findIntersections_spec (g : CrosswordGrid) (word : List Char)
    (hR : RowsOk g) :
    findIntersections g word = .ok (specCandidates g word) ∧
    ∀ c ∈ specCandidates g word, 0 ≤ c.row ∧ 0 ≤ c.col ∧
      canPlace g word c.row c.col c.direction = .ok true := by
  have heq : findIntersections g word = .ok (specCandidates g word) := by
    unfold findIntersections specCandidates
    exact interLoopP_spec fun p hp => (hR p hp).2
  refine ⟨heq, ?_⟩
  obtain ⟨cs, heq2, hp⟩ := findIntersections_ok word hR
  rw [heq] at heq2
  simp only [Except.ok.injEq] at heq2
  rw [← heq2] at hp
  exact hp

/-- Witness for `C8_findIntersections_spec` on a concrete one-word grid. -/
theorem C8_findIntersections_spec_witness :
    findIntersections gridW1 ['B','C'] = .ok (specCandidates gridW1 ['B','C']) ∧
    ∀ c ∈ specCandidates gridW1 ['B','C'], 0 ≤ c.row ∧ 0 ≤ c.col ∧
      canPlace gridW1 ['B','C'] c.row c.col c.direction = .ok true :=
  C8_findIntersections_spec gridW1 ['B','C'] (by decide)


/-! ## End-contact: inversion of `endsCheck` -/

theorem endsAfterAcross_true {g : CrosswordGrid} {len row col : Int}
    (h : endsAfterAcross g len row col = .ok true)
    (hg : col + len < (g.size : Int)) :
    readCell g row (col + len) = .ok .empty := by
  unfold endsAfterAcross at h
  rw [if_pos hg] at h
  cases hrc : readCell g row (col + len) with
  | error e => rw [hrc] at h; simp at h
  | ok cell =>
    rw [hrc] at h
    have h' : (if cell ≠ Cell.empty then (Except.ok false : Except JSError Bool)
        else Except.ok true) = Except.ok true := h
    by_cases hc : cell = .empty
    · rw [hc]
    · rw [if_pos hc] at h'
      simp at h'

theorem endsAfterDown_true {g : CrosswordGrid} {len row col : Int}
    (h : endsAfterDown g len row col = .ok true)
    (hg : row + len < (g.size : Int)) :
    readCell g (row + len) col = .ok .empty := by
  unfold endsAfterDown at h
  rw [if_pos hg] at h
  cases hrc : readCell g (row + len) col with
  | error e => rw [hrc] at h; simp at h
  | ok cell =>
    rw [hrc] at h
    have h' : (if cell ≠ Cell.empty then (Except.ok false : Except JSError Bool)
        else Except.ok true) = Except.ok true := h
    by_cases hc : cell = .empty
    · rw [hc]
    · rw [if_pos hc] at h'
      simp at h'

theorem endsCheck_true_across {g : CrosswordGrid} {len row col : Int}
    (h : endsCheck g len row col .across = .ok true) :
    (0 < col → readCell g row (col - 1) = .ok .empty) ∧
    (col + len < (g.size : Int) → readCell g row (col + len) = .ok .empty) := by
  simp only [endsCheck] at h
  by_cases hg : 0 < col
  · rw [if_pos hg] at h
    cases hrc : readCell g row (col - 1) with
    | error e => rw [hrc] at h; simp at h
    | ok cell =>
      rw [hrc] at h
      have h' : (if cell ≠ Cell.empty then (Except.ok false : Except JSError Bool)
          else endsAfterAcross g len row col) = Except.ok true := h
      by_cases hc : cell = .empty
      · rw [if_neg (show ¬ cell ≠ Cell.empty by simp [hc])] at h'
        exact ⟨fun _ => by rw [hc], fun hlt => endsAfterAcross_true h' hlt⟩
      · rw [if_pos hc] at h'
        simp at h'
  · rw [if_neg hg] at h
    exact ⟨fun hcol => absurd hcol hg, fun hlt => endsAfterAcross_true h hlt⟩

theorem endsCheck_true_down {g : CrosswordGrid} {len row col : Int}
    (h : endsCheck g len row col .down = .ok true) :
    (0 < row → readCell g (row - 1) col = .ok .empty) ∧
    (row + len < (g.size : Int) → readCell g (row + len) col = .ok .empty) := by
  simp only [endsCheck] at h
  by_cases hg : 0 < row
  · rw [if_pos hg] at h
    cases hrc : readCell g (row - 1) col with
    | error e => rw [hrc] at h; simp at h
    | ok cell =>
      rw [hrc] at h
      have h' : (if cell ≠ Cell.empty then (Except.ok false : Except JSError Bool)
          else endsAfterDown g len row col) = Except.ok true := h
      by_cases hc : cell = .empty
      · rw [if_neg (show ¬ cell ≠ Cell.empty by simp [hc])] at h'
        exact ⟨fun _ => by rw [hc], fun hlt => endsAfterDown_true h' hlt⟩
      · rw [if_pos hc] at h'
        simp at h'
  · rw [if_neg hg] at h
    exact ⟨fun hrow => absurd hrow hg, fun hlt => endsAfterDown_true h hlt⟩

/-! ## C6 (amended): end contact holds at placement time -/

/-- C6 (amended): every `canPlace`-guarded placement has, at the moment it
is committed, the cell before the word's start and the cell after its end
empty or out of bounds — both in the grid that was checked and in the grid
`place` returns (part 1); the unguarded anchor placement on the fresh grid
also satisfies it (part 2).  The property is NOT an invariant of the whole
driver run: a later, longer word placed over a shorter one in the same
direction fills the shorter word's after-end cell
(`C6_counterexample`). -/
theorem C6_end_contact_at_placement :
    (∀ (g : CrosswordGrid) (w : PlacedWord),
      canPlace g w.answer w.row w.col w.direction = .ok true →
      endFreeAt g (endBeforePos w) ∧ endFreeAt g (endAfterPos w) ∧
      ∀ (clue : String) (n : Nat),
        endFreeAt (place g w.answer w.row w.col w.direction clue n)
          (endBeforePos w) ∧
        endFreeAt (place g w.answer w.row w.col w.direction clue n)
          (endAfterPos w)) ∧
    (∀ (w : PlacedWord), w.row = 2 → w.col = 2 → w.direction = .across →
      endFreeAt (place (emptyGrid 20) w.answer 2 2 .across w.clue 1)
        (endBeforePos w) ∧
      endFreeAt (place (emptyGrid 20) w.answer 2 2 .across w.clue 1)
        (endAfterPos w)) := by
  constructor
  · intro g w h
    obtain ⟨-, -, -, hends⟩ := canPlace_true_parts h
    cases hd : w.direction with
    | across =>
      have hb1 : (endBeforePos w).1 = w.row := by unfold endBeforePos; rw [hd]
      have hb2 : (endBeforePos w).2 = w.col - 1 := by unfold endBeforePos; rw [hd]
      have ha1 : (endAfterPos w).1 = w.row := by unfold endAfterPos; rw [hd]
      have ha2 : (endAfterPos w).2 = w.col + (w.answer.length : Int) := by
        unfold endAfterPos; rw [hd]
      rw [hd] at hends
      obtain ⟨hbef, haft⟩ := endsCheck_true_across hends
      have hBefore : endFreeAt g (endBeforePos w) := by
        unfold endFreeAt
        rw [hb1, hb2]
        by_cases hg : 0 < w.col
        · obtain ⟨hc, -, -⟩ := readCell_ok_inv (hbef hg)
          exact Or.inl hc.symm
        · exact Or.inr fun hsq => by obtain ⟨-, -, h3, -⟩ := hsq; omega
      have hAfter : endFreeAt g (endAfterPos w) := by
        unfold endFreeAt
        rw [ha1, ha2]
        by_cases hg : w.col + (w.answer.length : Int) < (g.size : Int)
        · obtain ⟨hc, -, -⟩ := readCell_ok_inv (haft hg)
          exact Or.inl hc.symm
        · exact Or.inr fun hsq => by obtain ⟨-, -, -, h4⟩ := hsq; omega
      refine ⟨hBefore, hAfter, ?_⟩
      intro clue n
      have ho1 : (place g w.answer w.row w.col Direction.across clue n).cells
          (endBeforePos w).1 (endBeforePos w).2 =
          g.cells (endBeforePos w).1 (endBeforePos w).2 := by
        rw [hb1, hb2]
        refine place_cells_off ?_
        intro i hi heq
        have h2 : w.col + (i : Int) = w.col - 1 := congrArg Prod.snd heq
        omega
      have ho2 : (place g w.answer w.row w.col Direction.across clue n).cells
          (endAfterPos w).1 (endAfterPos w).2 =
          g.cells (endAfterPos w).1 (endAfterPos w).2 := by
        rw [ha1, ha2]
        refine place_cells_off ?_
        intro i hi heq
        have h2 : w.col + (i : Int) = w.col + (w.answer.length : Int) :=
          congrArg Prod.snd heq
        omega
      unfold endFreeAt at hBefore hAfter ⊢
      rw [ho1, ho2]
      exact ⟨hBefore, hAfter⟩
    | down =>
      have hb1 : (endBeforePos w).1 = w.row - 1 := by unfold endBeforePos; rw [hd]
      have hb2 : (endBeforePos w).2 = w.col := by unfold endBeforePos; rw [hd]
      have ha1 : (endAfterPos w).1 = w.row + (w.answer.length : Int) := by
        unfold endAfterPos; rw [hd]
      have ha2 : (endAfterPos w).2 = w.col := by unfold endAfterPos; rw [hd]
      rw [hd] at hends
      obtain ⟨hbef, haft⟩ := endsCheck_true_down hends
      have hBefore : endFreeAt g (endBeforePos w) := by
        unfold endFreeAt
        rw [hb1, hb2]
        by_cases hg : 0 < w.row
        · obtain ⟨hc, -, -⟩ := readCell_ok_inv (hbef hg)
          exact Or.inl hc.symm
        · exact Or.inr fun hsq => by obtain ⟨h1, -, -, -⟩ := hsq; omega
      have hAfter : endFreeAt g (endAfterPos w) := by
        unfold endFreeAt
        rw [ha1, ha2]
        by_cases hg : w.row + (w.answer.length : Int) < (g.size : Int)
        · obtain ⟨hc, -, -⟩ := readCell_ok_inv (haft hg)
          exact Or.inl hc.symm
        · exact Or.inr fun hsq => by obtain ⟨-, h2, -, -⟩ := hsq; omega
      refine ⟨hBefore, hAfter, ?_⟩
      intro clue n
      have ho1 : (place g w.answer w.row w.col Direction.down clue n).cells
          (endBeforePos w).1 (endBeforePos w).2 =
          g.cells (endBeforePos w).1 (endBeforePos w).2 := by
        rw [hb1, hb2]
        refine place_cells_off ?_
        intro i hi heq
        have h2 : w.row + (i : Int) = w.row - 1 := congrArg Prod.fst heq
        omega
      have ho2 : (place g w.answer w.row w.col Direction.down clue n).cells
          (endAfterPos w).1 (endAfterPos w).2 =
          g.cells (endAfterPos w).1 (endAfterPos w).2 := by
        rw [ha1, ha2]
        refine place_cells_off ?_
        intro i hi heq
        have h2 : w.row + (i : Int) = w.row + (w.answer.length : Int) :=
          congrArg Prod.fst heq
        omega
      unfold endFreeAt at hBefore hAfter ⊢
      rw [ho1, ho2]
      exact ⟨hBefore, hAfter⟩
  · intro w hrow hcol hdir
    have hb1 : (endBeforePos w).1 = 2 := by unfold endBeforePos; rw [hdir, hrow]
    have hb2 : (endBeforePos w).2 = 1 := by
      unfold endBeforePos; rw [hdir, hcol]; norm_num
    have ha1 : (endAfterPos w).1 = 2 := by unfold endAfterPos; rw [hdir, hrow]
    have ha2 : (endAfterPos w).2 = 2 + (w.answer.length : Int) := by
      unfold endAfterPos; rw [hdir, hcol]
    constructor
    · unfold endFreeAt
      rw [hb1, hb2]
      refine Or.inl ?_
      rw [place_cells_off (fun i hi heq => by
        have h2 : (2 : Int) + (i : Int) = 1 := congrArg Prod.snd heq
        omega)]
      show baseCell 20 2 1 = Cell.empty
      unfold baseCell
      norm_num
    · unfold endFreeAt
      rw [ha1, ha2]
      by_cases hg : 2 + (w.answer.length : Int) < 20
      · refine Or.inl ?_
        rw [place_cells_off (fun i hi heq => by
          have h2 : (2 : Int) + (i : Int) = 2 + (w.answer.length : Int) :=
            congrArg Prod.snd heq
          have h3 : (i : Int) < (w.answer.length : Int) := by exact_mod_cast hi
          omega)]
        show baseCell 20 2 (2 + (w.answer.length : Int)) = Cell.empty
        unfold baseCell
        rw [if_pos ⟨by norm_num, by norm_num, by positivity, hg⟩]
      · refine Or.inr ?_
        intro hsq
        obtain ⟨-, -, -, h4⟩ := hsq
        rw [place_size] at h4
        have h20 : ((emptyGrid 20).size : Int) = 20 := by norm_num [emptyGrid]
        omega

/-- C7 (amended): capacity handling for CANDIDATE placements. Every
placement made by `tryPlaceEntry` (the non-anchor path of the driver) is
guarded: either the grid is left unchanged, or the word is placed at a
candidate with non-negative row and col that `canPlace` accepted; and
`canPlace = ok true` does bound the word-axis run inside the working
grid (`col + len ≤ size` across, `row + len ≤ size` down), so a word-axis
overflow makes the candidate unplaceable rather than an error. The anchor
placement is NOT covered by this guard — see the counterexample, where a
successful layout writes a letter outside the working grid. -/
theorem C7_capacity_handling :
    (∀ (g : CrosswordGrid) (pc : Nat) (e : Entry), RowsOk g →
      ∃ g' pc', tryPlaceEntry g pc e = .ok (g', pc') ∧
        ((g' = g ∧ pc' = pc) ∨
         ∃ cand : Candidate, 0 ≤ cand.row ∧ 0 ≤ cand.col ∧
           canPlace g e.answer cand.row cand.col cand.direction = .ok true ∧
           g' = place g e.answer cand.row cand.col cand.direction e.clue
             (pc + 1) ∧
           pc' = pc + 1)) ∧
    (∀ (g : CrosswordGrid) (word : List Char) (row col : Int),
      canPlace g word row col .across = .ok true →
        col + (word.length : Int) ≤ (g.size : Int)) ∧
    (∀ (g : CrosswordGrid) (word : List Char) (row col : Int),
      canPlace g word row col .down = .ok true →
        row + (word.length : Int) ≤ (g.size : Int)) := by
  refine ⟨?_, ?_, ?_⟩
  · intro g pc e hR
    obtain ⟨g', pc', hstep, -, hcase⟩ := tryPlaceEntry_ok pc e hR
    refine ⟨g', pc', hstep, ?_⟩
    rcases hcase with h | ⟨-, -, cand, h1, h2, h3, h4, h5⟩
    · exact Or.inl h
    · exact Or.inr ⟨cand, h1, h2, h3, h4, h5⟩
  · intro g word row col h
    obtain ⟨hb, -, -, -⟩ := canPlace_true_parts h
    have hb' : ¬ (g.size : Int) < col + (word.length : Int) := by simpa using hb
    omega
  · intro g word row col h
    exact canPlace_down_true_bound h


/-! ## Numbering of `toOutput` -/

theorem lexLt_irrefl (p : Int × Int) : ¬ lexLt p p := by
  unfold lexLt; omega

theorem lexLt_asymm {p q : Int × Int} (h : lexLt p q) : ¬ lexLt q p := by
  unfold lexLt at h ⊢; omega

theorem numbered_mem {l : List (Int × Int)} {n : Nat} {pk : (Int × Int) × Nat} :
    pk ∈ numbered l n ↔
      ∃ i, ∃ h : i < l.length, l.get ⟨i, h⟩ = pk.1 ∧ pk.2 = n + i := by
  induction l generalizing n with
  | nil => simp [numbered]
  | cons p rest ih =>
    rw [numbered]
    constructor
    · intro h
      rcases List.mem_cons.1 h with h | h
      · refine ⟨0, by simp, ?_, ?_⟩
        · rw [h]
          rfl
        · rw [h]
          rfl
      · obtain ⟨i, hi, h1, h2⟩ := ih.1 h
        refine ⟨i + 1, by simpa using hi, ?_, by omega⟩
        simpa using h1
    · rintro ⟨i, hi, h1, h2⟩
      cases i with
      | zero =>
        have hpk : pk = (p, n) := by
          have h1' : p = pk.1 := h1
          have h2' : pk.2 = n := by simpa using h2
          calc pk = (pk.1, pk.2) := rfl
            _ = (p, n) := by rw [← h1', h2']
        rw [hpk]
        exact List.mem_cons_self _ _
      | succ i =>
        exact List.mem_cons_of_mem _
          (ih.2 ⟨i, by simpa using hi, by simpa using h1, by omega⟩)

theorem numbered_of_get (l : List (Int × Int)) (n i : Nat)
    (h : i < l.length) : (l.get ⟨i, h⟩, n + i) ∈ numbered l n :=
  numbered_mem.2 ⟨i, h, rfl, rfl⟩

theorem numbered_bounds {l : List (Int × Int)} {n : Nat}
    {pk : (Int × Int) × Nat} (h : pk ∈ numbered l n) :
    n ≤ pk.2 ∧ pk.2 < n + l.length := by
  obtain ⟨i, hi, -, h2⟩ := numbered_mem.1 h
  omega

theorem numbered_fst_mem {l : List (Int × Int)} {n : Nat}
    {pk : (Int × Int) × Nat} (h : pk ∈ numbered l n) : pk.1 ∈ l := by
  obtain ⟨i, hi, h1, -⟩ := numbered_mem.1 h
  rw [← h1]
  exact l.get_mem i hi

theorem numbered_order {l : List (Int × Int)} (hl : l.Pairwise lexLt) {n : Nat}
    {pk qm : (Int × Int) × Nat}
    (hp : pk ∈ numbered l n) (hq : qm ∈ numbered l n) :
    (pk.2 < qm.2 ↔ lexLt pk.1 qm.1) ∧ (pk.2 = qm.2 ↔ pk.1 = qm.1) := by
  obtain ⟨i, hi, hi1, hi2⟩ := numbered_mem.1 hp
  obtain ⟨j, hj, hj1, hj2⟩ := numbered_mem.1 hq
  rw [List.pairwise_iff_get] at hl
  have hlt : ∀ (a b : Nat) (ha : a < l.length) (hb : b < l.length), a < b →
      lexLt (l.get ⟨a, ha⟩) (l.get ⟨b, hb⟩) := by
    intro a b ha hb hab
    exact hl ⟨a, ha⟩ ⟨b, hb⟩ (by exact hab)
  have hgeteq : ∀ (a b : Nat) (ha : a < l.length) (hb : b < l.length), a = b →
      l.get ⟨a, ha⟩ = l.get ⟨b, hb⟩ := by
    intro a b ha hb hab
    subst hab
    rfl
  constructor
  · constructor
    · intro h
      have hij : i < j := by omega
      have := hlt i j hi hj hij
      rw [hi1, hj1] at this
      exact this
    · intro h
      rcases Nat.lt_trichotomy i j with hij | hij | hij
      · omega
      · exfalso
        have := hgeteq i j hi hj hij
        rw [hi1, hj1] at this
        rw [this] at h
        exact lexLt_irrefl _ h
      · exfalso
        have := hlt j i hj hi hij
        rw [hi1, hj1] at this
        exact lexLt_asymm h this
  · constructor
    · intro h
      have hij : i = j := by omega
      have := hgeteq i j hi hj hij
      rw [hi1, hj1] at this
      exact this
    · intro h
      rcases Nat.lt_trichotomy i j with hij | hij | hij
      · exfalso
        have := hlt i j hi hj hij
        rw [hi1, hj1, h] at this
        exact lexLt_irrefl _ this
      · omega
      · exfalso
        have := hlt j i hj hi hij
        rw [hi1, hj1, h] at this
        exact lexLt_irrefl _ this

theorem intRange_pairwise (lo hi : Int) : (intRange lo hi).Pairwise (· < ·) := by
  unfold intRange
  refine List.Pairwise.map _ ?_ (List.pairwise_lt_range _)
  intro a b hab
  omega

theorem intRange_mem {lo hi x : Int} : x ∈ intRange lo hi ↔ lo ≤ x ∧ x ≤ hi := by
  unfold intRange
  rw [List.mem_map]
  constructor
  · rintro ⟨k, hk, rfl⟩
    rw [List.mem_range] at hk
    omega
  · rintro ⟨h1, h2⟩
    refine ⟨(x - lo).toNat, ?_, by omega⟩
    rw [List.mem_range]
    omega

theorem boxCells_pairwise (b : Bounds) : (boxCells b).Pairwise lexLt := by
  unfold boxCells
  rw [List.pairwise_flatten]
  constructor
  · intro l' hl'
    obtain ⟨r, hr, rfl⟩ := List.mem_map.1 hl'
    refine List.Pairwise.map _ ?_ (intRange_pairwise _ _)
    intro a b hab
    exact Or.inr ⟨rfl, hab⟩
  · refine List.Pairwise.map _ ?_ (intRange_pairwise _ _)
    intro r1 r2 h12 x hx y hy
    obtain ⟨c1, -, rfl⟩ := List.mem_map.1 hx
    obtain ⟨c2, -, rfl⟩ := List.mem_map.1 hy
    exact Or.inl h12

theorem startCells_pairwise (pw : List PlacedWord) (b : Bounds) :
    (startCells pw b).Pairwise lexLt :=
  (boxCells_pairwise b).filter _

theorem scanNumber_eq (pw : List PlacedWord) (b : Bounds) :
    ∀ (cs : List (Int × Int)) (n : Nat),
      scanNumber pw b cs n =
        (((numbered (cs.filter fun p => startsAt pw p.1 p.2) n).map
            fun pk => clueAt pw b pk.1.1 pk.1.2 pk.2 .across).flatten,
         ((numbered (cs.filter fun p => startsAt pw p.1 p.2) n).map
            fun pk => clueAt pw b pk.1.1 pk.1.2 pk.2 .down).flatten)
  | [], n => by simp [scanNumber, numbered]
  | (r, c) :: rest, n => by
    rw [scanNumber]
    by_cases hs : startsAt pw r c = true
    · rw [if_pos hs, scanNumber_eq pw b rest (n + 1),
        List.filter_cons_of_pos (by simpa using hs), numbered]
      simp
    · rw [if_neg hs, scanNumber_eq pw b rest n,
        List.filter_cons_of_neg (by simpa using hs)]

theorem mem_clueAt {pw : List PlacedWord} {b : Bounds} {r c : Int} {n : Nat}
    {d : Direction} {e : ClueEntry} :
    e ∈ clueAt pw b r c n d ↔
      ∃ w, lastStartDir pw r c d = some w ∧
        e = { number := n, clue := w.clue, answer := w.answer,
              x := c - b.minCol + 1, y := r - b.minRow + 1 } := by
  unfold clueAt
  cases h : lastStartDir pw r c d with
  | none => simp
  | some w => simp

theorem lastStartDir_mem {pw : List PlacedWord} {r c : Int} {d : Direction}
    {w : PlacedWord} (h : lastStartDir pw r c d = some w) :
    w ∈ pw ∧ w.row = r ∧ w.col = c ∧ w.direction = d := by
  unfold lastStartDir at h
  obtain ⟨hne, hw⟩ := List.mem_getLast?_eq_getLast (show w ∈ _ from h)
  have hm : w ∈ pw.filter fun w =>
      decide (w.row = r) && decide (w.col = c) && decide (w.direction = d) := by
    rw [hw]
    exact List.getLast_mem hne
  have := List.mem_filter.1 hm
  refine ⟨this.1, ?_⟩
  have hp := this.2
  simp only [Bool.and_eq_true, decide_eq_true_eq] at hp
  exact ⟨hp.1.1, hp.1.2, hp.2⟩

theorem lastStartDir_isSome_of_mem {pw : List PlacedWord} {w : PlacedWord}
    (hm : w ∈ pw) :
    ∃ w', lastStartDir pw w.row w.col w.direction = some w' := by
  unfold lastStartDir
  have hmem : w ∈ pw.filter fun v =>
      decide (v.row = w.row) && decide (v.col = w.col) &&
        decide (v.direction = w.direction) := by
    rw [List.mem_filter]
    exact ⟨hm, by simp⟩
  have hne : (pw.filter fun v =>
      decide (v.row = w.row) && decide (v.col = w.col) &&
        decide (v.direction = w.direction)) ≠ [] :=
    List.ne_nil_of_mem hmem
  exact ⟨_, List.getLast?_eq_getLast_of_ne_nil hne⟩

theorem startsAt_iff {pw : List PlacedWord} {r c : Int} :
    startsAt pw r c = true ↔ ∃ w ∈ pw, w.row = r ∧ w.col = c := by
  unfold startsAt
  rw [List.any_eq_true]
  constructor
  · rintro ⟨w, hw, hp⟩
    simp only [Bool.and_eq_true, decide_eq_true_eq] at hp
    exact ⟨w, hw, hp⟩
  · rintro ⟨w, hw, h1, h2⟩
    exact ⟨w, hw, by simp [h1, h2]⟩

theorem mem_flatten_map {α β : Type} {f : α → List β} {l : List α} {x : β} :
    x ∈ (l.map f).flatten ↔ ∃ a ∈ l, x ∈ f a := by
  rw [List.mem_flatten]
  constructor
  · rintro ⟨lst, hl, hx⟩
    obtain ⟨a, ha, rfl⟩ := List.mem_map.1 hl
    exact ⟨a, ha, hx⟩
  · rintro ⟨a, ha, hx⟩
    exact ⟨f a, List.mem_map_of_mem f ha, hx⟩


theorem mem_toOutput_across {g : CrosswordGrid} {e : ClueEntry} :
    e ∈ (toOutput g).across ↔
      ∃ pk ∈ numbered (startCells g.placedWords (getBounds g)) 1,
        ∃ w, lastStartDir g.placedWords pk.1.1 pk.1.2 .across = some w ∧
          e = { number := pk.2, clue := w.clue, answer := w.answer,
                x := pk.1.2 - (getBounds g).minCol + 1,
                y := pk.1.1 - (getBounds g).minRow + 1 } := by
  show e ∈ sortByNumber (scanNumber g.placedWords (getBounds g)
      (boxCells (getBounds g)) 1).1 ↔ _
  rw [(sortByNumber_perm _).mem_iff, scanNumber_eq]
  show e ∈ ((numbered (startCells g.placedWords (getBounds g)) 1).map
      fun pk => clueAt g.placedWords (getBounds g) pk.1.1 pk.1.2 pk.2
        .across).flatten ↔ _
  rw [mem_flatten_map]
  constructor
  · rintro ⟨pk, hpk, he⟩
    obtain ⟨w, hw, he'⟩ := mem_clueAt.1 he
    exact ⟨pk, hpk, w, hw, he'⟩
  · rintro ⟨pk, hpk, w, hw, he'⟩
    exact ⟨pk, hpk, mem_clueAt.2 ⟨w, hw, he'⟩⟩

theorem mem_toOutput_down {g : CrosswordGrid} {e : ClueEntry} :
    e ∈ (toOutput g).down ↔
      ∃ pk ∈ numbered (startCells g.placedWords (getBounds g)) 1,
        ∃ w, lastStartDir g.placedWords pk.1.1 pk.1.2 .down = some w ∧
          e = { number := pk.2, clue := w.clue, answer := w.answer,
                x := pk.1.2 - (getBounds g).minCol + 1,
                y := pk.1.1 - (getBounds g).minRow + 1 } := by
  show e ∈ sortByNumber (scanNumber g.placedWords (getBounds g)
      (boxCells (getBounds g)) 1).2 ↔ _
  rw [(sortByNumber_perm _).mem_iff, scanNumber_eq]
  show e ∈ ((numbered (startCells g.placedWords (getBounds g)) 1).map
      fun pk => clueAt g.placedWords (getBounds g) pk.1.1 pk.1.2 pk.2
        .down).flatten ↔ _
  rw [mem_flatten_map]
  constructor
  · rintro ⟨pk, hpk, he⟩
    obtain ⟨w, hw, he'⟩ := mem_clueAt.1 he
    exact ⟨pk, hpk, w, hw, he'⟩
  · rintro ⟨pk, hpk, w, hw, he'⟩
    exact ⟨pk, hpk, mem_clueAt.2 ⟨w, hw, he'⟩⟩

theorem entryCellOf_clue {b : Bounds} {p : Int × Int} {n : Nat}
    {w : PlacedWord} :
    entryCellOf b
      ⟨n, w.clue, w.answer, p.2 - b.minCol + 1, p.1 - b.minRow + 1⟩ = p := by
  obtain ⟨r, c⟩ := p
  unfold entryCellOf
  simp only
  rw [Prod.mk.injEq]
  constructor <;> ring

/-- C4 (amended): for every grid, the clue numbers of the output's across
and down lists together are exactly `1..K` with no gaps, where `K` is the
number of bounding-box cells at which a word starts; numbers increase
strictly in row-major order of the entries' start cells, and two entries
share a number exactly when they share a start cell (so a dual-start cell
yields one shared number); each across/down entry carries the clue and
answer of the LAST placement record with its start cell and direction, and
a cell holding both an across and a down record yields one across and one
down entry with one shared number.  (The original claim's 'every placement
record corresponds to exactly one clue entry' is refuted by
`C4_counterexample`: a shadowed record yields no entry.) -/
theorem C4_numbering (g : CrosswordGrid) :
    (∀ e ∈ (toOutput g).across ++ (toOutput g).down,
        1 ≤ e.number ∧ e.number ≤ numStarts g) ∧
    (∀ k, 1 ≤ k → k ≤ numStarts g →
        ∃ e ∈ (toOutput g).across ++ (toOutput g).down, e.number = k) ∧
    (∀ e ∈ (toOutput g).across ++ (toOutput g).down,
      ∀ f ∈ (toOutput g).across ++ (toOutput g).down,
        (e.number < f.number ↔
          lexLt (entryCellOf (getBounds g) e) (entryCellOf (getBounds g) f)) ∧
        (e.number = f.number ↔
          entryCellOf (getBounds g) e = entryCellOf (getBounds g) f)) ∧
    (∀ e ∈ (toOutput g).across,
        ∃ w ∈ g.placedWords, w.direction = .across ∧
          (w.row, w.col) = entryCellOf (getBounds g) e ∧
          lastStartDir g.placedWords w.row w.col .across = some w ∧
          e.clue = w.clue ∧ e.answer = w.answer) ∧
    (∀ e ∈ (toOutput g).down,
        ∃ w ∈ g.placedWords, w.direction = .down ∧
          (w.row, w.col) = entryCellOf (getBounds g) e ∧
          lastStartDir g.placedWords w.row w.col .down = some w ∧
          e.clue = w.clue ∧ e.answer = w.answer) ∧
    (∀ r c, (r, c) ∈ boxCells (getBounds g) →
      ∀ wa wd, lastStartDir g.placedWords r c .across = some wa →
        lastStartDir g.placedWords r c .down = some wd →
        ∃ ea ∈ (toOutput g).across, ∃ ed ∈ (toOutput g).down,
          ea.number = ed.number ∧
          entryCellOf (getBounds g) ea = (r, c) ∧
          entryCellOf (getBounds g) ed = (r, c) ∧
          ea.clue = wa.clue ∧ ea.answer = wa.answer ∧
          ed.clue = wd.clue ∧ ed.answer = wd.answer) := by
  have hmem : ∀ e ∈ (toOutput g).across ++ (toOutput g).down,
      ∃ pk ∈ numbered (startCells g.placedWords (getBounds g)) 1,
        e.number = pk.2 ∧ entryCellOf (getBounds g) e = pk.1 := by
    intro e he
    rcases List.mem_append.1 he with he | he
    · obtain ⟨pk, hpk, w, hw, he'⟩ := mem_toOutput_across.1 he
      refine ⟨pk, hpk, ?_, ?_⟩
      · rw [he']
      · rw [he']
        exact entryCellOf_clue
    · obtain ⟨pk, hpk, w, hw, he'⟩ := mem_toOutput_down.1 he
      refine ⟨pk, hpk, ?_, ?_⟩
      · rw [he']
      · rw [he']
        exact entryCellOf_clue
  have hK : numStarts g = (startCells g.placedWords (getBounds g)).length := rfl
  refine ⟨?_, ?_, ?_, ?_, ?_, ?_⟩
  · intro e he
    obtain ⟨pk, hpk, hn, -⟩ := hmem e he
    have := numbered_bounds hpk
    rw [hK]
    omega
  · intro k hk1 hk2
    rw [hK] at hk2
    have hi : k - 1 < (startCells g.placedWords (getBounds g)).length := by omega
    set sl := startCells g.placedWords (getBounds g) with hsl
    have hpk := numbered_of_get _ 1 _ hi
    have hmemsl : sl.get ⟨k - 1, hi⟩ ∈ sl := sl.get_mem _ hi
    have hfil := List.mem_filter.1 hmemsl
    obtain ⟨w, hwmem, hwr, hwc⟩ := startsAt_iff.1 hfil.2
    cases hd : w.direction with
    | across =>
      obtain ⟨w', hw'⟩ := lastStartDir_isSome_of_mem hwmem
      rw [hd, hwr, hwc] at hw'
      refine ⟨_, List.mem_append_left _ (mem_toOutput_across.2
        ⟨(sl.get ⟨k - 1, hi⟩, 1 + (k - 1)), hpk, w', ?_, rfl⟩), ?_⟩
      · rw [show (sl.get ⟨k - 1, hi⟩, 1 + (k - 1)).1 = sl.get ⟨k - 1, hi⟩ from rfl]
        exact hw'
      · show 1 + (k - 1) = k
        omega
    | down =>
      obtain ⟨w', hw'⟩ := lastStartDir_isSome_of_mem hwmem
      rw [hd, hwr, hwc] at hw'
      refine ⟨_, List.mem_append_right _ (mem_toOutput_down.2
        ⟨(sl.get ⟨k - 1, hi⟩, 1 + (k - 1)), hpk, w', ?_, rfl⟩), ?_⟩
      · rw [show (sl.get ⟨k - 1, hi⟩, 1 + (k - 1)).1 = sl.get ⟨k - 1, hi⟩ from rfl]
        exact hw'
      · show 1 + (k - 1) = k
        omega
  · intro e he f hf
    obtain ⟨pk, hpk, hn1, hc1⟩ := hmem e he
    obtain ⟨qm, hqm, hn2, hc2⟩ := hmem f hf
    have := numbered_order (startCells_pairwise _ _) hpk hqm
    rw [hn1, hn2, hc1, hc2]
    exact this
  · intro e he
    obtain ⟨pk, hpk, w, hw, he'⟩ := mem_toOutput_across.1 he
    obtain ⟨hwmem, hwr, hwc, hwd⟩ := lastStartDir_mem hw
    refine ⟨w, hwmem, hwd, ?_, ?_, by rw [he'], by rw [he']⟩
    · rw [hwr, hwc, he', entryCellOf_clue]
    · rw [hwr, hwc]
      exact hw
  · intro e he
    obtain ⟨pk, hpk, w, hw, he'⟩ := mem_toOutput_down.1 he
    obtain ⟨hwmem, hwr, hwc, hwd⟩ := lastStartDir_mem hw
    refine ⟨w, hwmem, hwd, ?_, ?_, by rw [he'], by rw [he']⟩
    · rw [hwr, hwc, he', entryCellOf_clue]
    · rw [hwr, hwc]
      exact hw
  · intro r c hbox wa wd hwa hwd
    obtain ⟨hwamem, hwar, hwac, -⟩ := lastStartDir_mem hwa
    have hstarts : startsAt g.placedWords r c = true :=
      startsAt_iff.2 ⟨wa, hwamem, hwar, hwac⟩
    have hmemsl : (r, c) ∈ startCells g.placedWords (getBounds g) :=
      List.mem_filter.2 ⟨hbox, hstarts⟩
    obtain ⟨i, hget⟩ := List.mem_iff_get.1 hmemsl
    have hpk := numbered_of_get _ 1 _ i.isLt
    have hget' : (startCells g.placedWords (getBounds g)).get
        ⟨(i : Nat), i.isLt⟩ = (r, c) := hget
    rw [hget'] at hpk
    refine ⟨_, mem_toOutput_across.2 ⟨((r, c), 1 + (i : Nat)), hpk, wa, hwa, rfl⟩,
           _, mem_toOutput_down.2 ⟨((r, c), 1 + (i : Nat)), hpk, wd, hwd, rfl⟩,
           rfl, entryCellOf_clue, entryCellOf_clue, rfl, rfl, rfl, rfl⟩


/-! ## Bounding-box coverage and the output grid -/

theorem boundsStep_mono {g : CrosswordGrid} {b : Bounds} {r' c' r c : Int}
    (h : covers b r c) : covers (boundsStep g b r' c') r c := by
  unfold boundsStep
  split
  · obtain ⟨h1, h2, h3, h4⟩ := h
    exact ⟨by simp; omega, by simp; omega, by simp; omega, by simp; omega⟩
  · exact h

theorem boundsStep_covers {g : CrosswordGrid} {b : Bounds} {r c : Int}
    (hne : g.cells r c ≠ .empty) : covers (boundsStep g b r c) r c := by
  unfold boundsStep
  rw [if_pos hne]
  exact ⟨by simp, by simp, by simp, by simp⟩

theorem foldl_inner_mono (g : CrosswordGrid) (r : Nat) (l : List Nat)
    (b : Bounds) {r0 c0 : Int} (h : covers b r0 c0) :
    covers (l.foldl (fun b c => boundsStep g b (r : Int) (c : Int)) b) r0 c0 := by
  induction l generalizing b with
  | nil => exact h
  | cons c cs ih => exact ih _ (boundsStep_mono h)

theorem foldl_inner_covers (g : CrosswordGrid) (r : Nat) (l : List Nat)
    (b : Bounds) {c0 : Nat} (hc : c0 ∈ l)
    (hne : g.cells (r : Int) (c0 : Int) ≠ .empty) :
    covers (l.foldl (fun b c => boundsStep g b (r : Int) (c : Int)) b)
      (r : Int) (c0 : Int) := by
  induction l generalizing b with
  | nil => cases hc
  | cons c cs ih =>
    rcases List.mem_cons.1 hc with rfl | hc'
    · exact foldl_inner_mono g r cs _ (boundsStep_covers hne)
    · exact ih _ hc'

theorem foldl_outer_mono (g : CrosswordGrid) (l : List Nat) (b : Bounds)
    {r0 c0 : Int} (h : covers b r0 c0) :
    covers (l.foldl (fun b r => (List.range g.size).foldl
      (fun b c => boundsStep g b (r : Int) (c : Int)) b) b) r0 c0 := by
  induction l generalizing b with
  | nil => exact h
  | cons rr rs ih => exact ih _ (foldl_inner_mono _ _ _ _ h)

theorem foldl_outer_covers (g : CrosswordGrid) (l : List Nat) (b : Bounds)
    {rn cn : Nat} (hr : rn ∈ l) (hc : cn ∈ List.range g.size)
    (hne : g.cells (rn : Int) (cn : Int) ≠ .empty) :
    covers (l.foldl (fun b r => (List.range g.size).foldl
      (fun b c => boundsStep g b (r : Int) (c : Int)) b) b)
      (rn : Int) (cn : Int) := by
  induction l generalizing b with
  | nil => cases hr
  | cons rr rs ih =>
    rcases List.mem_cons.1 hr with rfl | hr'
    · exact foldl_outer_mono g rs _ (foldl_inner_covers g rn _ _ hc hne)
    · exact ih _ hr'

theorem getBounds_covers {g : CrosswordGrid} {r c : Int}
    (h0r : 0 ≤ r) (hrs : r < (g.size : Int)) (h0c : 0 ≤ c)
    (hcs : c < (g.size : Int)) (hne : g.cells r c ≠ .empty) :
    covers (getBounds g) r c := by
  obtain ⟨rn, rfl⟩ : ∃ rn : Nat, (rn : Int) = r := ⟨r.toNat, by omega⟩
  obtain ⟨cn, rfl⟩ : ∃ cn : Nat, (cn : Int) = c := ⟨c.toNat, by omega⟩
  have hrn : rn ∈ List.range g.size := List.mem_range.2 (by exact_mod_cast hrs)
  have hcn : cn ∈ List.range g.size := List.mem_range.2 (by exact_mod_cast hcs)
  exact foldl_outer_covers g _ _ hrn hcn hne

theorem intRange_getElem {lo hi x : Int} (h1 : lo ≤ x) (h2 : x ≤ hi) :
    (intRange lo hi)[(x - lo).toNat]? = some x := by
  unfold intRange
  rw [List.getElem?_map, List.getElem?_range (by omega)]
  have hx : lo + (((x - lo).toNat : Nat) : Int) = x := by omega
  rw [Option.map_some']
  rw [hx]

theorem toOutput_grid_read {g : CrosswordGrid} {r c : Int}
    (h : covers (getBounds g) r c) :
    outCellAt (toOutput g) (r - (getBounds g).minRow)
      (c - (getBounds g).minCol) = some (renderCell (g.cells r c)) := by
  obtain ⟨h1, h2, h3, h4⟩ := h
  unfold outCellAt
  rw [if_pos ⟨by omega, by omega⟩]
  have hgrid : (toOutput g).grid =
      (intRange (getBounds g).minRow (getBounds g).maxRow).map
        fun rr => (intRange (getBounds g).minCol (getBounds g).maxCol).map
          fun cc => renderCell (g.cells rr cc) := rfl
  have hrow : (toOutput g).grid[(r - (getBounds g).minRow).toNat]? =
      some ((intRange (getBounds g).minCol (getBounds g).maxCol).map
        fun cc => renderCell (g.cells r cc)) := by
    rw [hgrid, List.getElem?_map, intRange_getElem h1 h2]
    rfl
  rw [hrow]
  show ((intRange (getBounds g).minCol (getBounds g).maxCol).map
      fun cc => renderCell (g.cells r cc))[(c - (getBounds g).minCol).toNat]? = _
  rw [List.getElem?_map, intRange_getElem h3 h4]
  rfl

/-- C5 (amended): if every placement record's letters are written in the
grid along its run and every run lies inside the working square, then
every clue entry of the output round-trips: reading `answer.length` cells
of the rendered grid from the entry's 1-based `(x, y)` in its orientation
reproduces the answer exactly, and each visited grid cell holds a letter
(never the empty sentinel).  The in-square premise is exactly what the
unguarded anchor can violate (`C5_counterexample`). -/
theorem C5_round_trip (g : CrosswordGrid)
    (hLet : ∀ w ∈ g.placedWords, ∀ i, ∀ hi : i < w.answer.length,
      g.cells (cellPos w.row w.col w.direction i).1
        (cellPos w.row w.col w.direction i).2 = .letter (w.answer.get ⟨i, hi⟩))
    (hIn : ∀ w ∈ g.placedWords, ∀ i, i < w.answer.length →
      inSquare g (cellPos w.row w.col w.direction i).1
        (cellPos w.row w.col w.direction i).2) :
    (∀ e ∈ (toOutput g).across, ∀ k, ∀ hk : k < e.answer.length,
      readEntryCell (toOutput g) e .across k = some (e.answer.get ⟨k, hk⟩) ∧
      ∃ ch, g.cells (entryCellOf (getBounds g) e).1
        ((entryCellOf (getBounds g) e).2 + (k : Int)) = Cell.letter ch) ∧
    (∀ e ∈ (toOutput g).down, ∀ k, ∀ hk : k < e.answer.length,
      readEntryCell (toOutput g) e .down k = some (e.answer.get ⟨k, hk⟩) ∧
      ∃ ch, g.cells ((entryCellOf (getBounds g) e).1 + (k : Int))
        (entryCellOf (getBounds g) e).2 = Cell.letter ch) := by
  constructor
  · intro e he k hk
    obtain ⟨pk, hpk, w, hw, he'⟩ := mem_toOutput_across.1 he
    obtain ⟨hwmem, hwr, hwc, hwd⟩ := lastStartDir_mem hw
    subst he'
    have hk' : k < w.answer.length := hk
    have hL := hLet w hwmem k hk'
    have hI := hIn w hwmem k hk'
    rw [hwd] at hL hI
    have hL' : g.cells w.row (w.col + (k : Int)) =
        .letter (w.answer.get ⟨k, hk'⟩) := hL
    have hI' : inSquare g w.row (w.col + (k : Int)) := hI
    obtain ⟨hi1, hi2, hi3, hi4⟩ := hI'
    have hne : g.cells w.row (w.col + (k : Int)) ≠ .empty := by
      rw [hL']
      intro hco
      cases hco
    have hcov := getBounds_covers hi1 hi2 hi3 hi4 hne
    constructor
    · show outCellAt (toOutput g)
        (pk.1.1 - (getBounds g).minRow + 1 - 1)
        (pk.1.2 - (getBounds g).minCol + 1 - 1 + (k : Int)) = _
      rw [show pk.1.1 - (getBounds g).minRow + 1 - 1
            = w.row - (getBounds g).minRow by rw [hwr]; ring,
          show pk.1.2 - (getBounds g).minCol + 1 - 1 + (k : Int)
            = (w.col + (k : Int)) - (getBounds g).minCol by rw [hwc]; ring]
      rw [toOutput_grid_read hcov, hL']
      rfl
    · refine ⟨w.answer.get ⟨k, hk'⟩, ?_⟩
      rw [entryCellOf_clue]
      rw [← hwr, ← hwc]
      exact hL'
  · intro e he k hk
    obtain ⟨pk, hpk, w, hw, he'⟩ := mem_toOutput_down.1 he
    obtain ⟨hwmem, hwr, hwc, hwd⟩ := lastStartDir_mem hw
    subst he'
    have hk' : k < w.answer.length := hk
    have hL := hLet w hwmem k hk'
    have hI := hIn w hwmem k hk'
    rw [hwd] at hL hI
    have hL' : g.cells (w.row + (k : Int)) w.col =
        .letter (w.answer.get ⟨k, hk'⟩) := hL
    have hI' : inSquare g (w.row + (k : Int)) w.col := hI
    obtain ⟨hi1, hi2, hi3, hi4⟩ := hI'
    have hne : g.cells (w.row + (k : Int)) w.col ≠ .empty := by
      rw [hL']
      intro hco
      cases hco
    have hcov := getBounds_covers hi1 hi2 hi3 hi4 hne
    constructor
    · show outCellAt (toOutput g)
        (pk.1.1 - (getBounds g).minRow + 1 - 1 + (k : Int))
        (pk.1.2 - (getBounds g).minCol + 1 - 1) = _
      rw [show pk.1.1 - (getBounds g).minRow + 1 - 1 + (k : Int)
            = (w.row + (k : Int)) - (getBounds g).minRow by rw [hwr]; ring,
          show pk.1.2 - (getBounds g).minCol + 1 - 1
            = w.col - (getBounds g).minCol by rw [hwc]; ring]
      rw [toOutput_grid_read hcov, hL']
      rfl
    · refine ⟨w.answer.get ⟨k, hk'⟩, ?_⟩
      rw [entryCellOf_clue]
      rw [← hwr, ← hwc]
      exact hL'

theorem C5_round_trip_witness :
    (∀ w ∈ gridW1.placedWords, ∀ i, ∀ hi : i < w.answer.length,
      gridW1.cells (cellPos w.row w.col w.direction i).1
        (cellPos w.row w.col w.direction i).2 = .letter (w.answer.get ⟨i, hi⟩)) ∧
    (∀ w ∈ gridW1.placedWords, ∀ i, i < w.answer.length →
      inSquare gridW1 (cellPos w.row w.col w.direction i).1
        (cellPos w.row w.col w.direction i).2) ∧
    ((∀ e ∈ (toOutput gridW1).across, ∀ k, ∀ hk : k < e.answer.length,
      readEntryCell (toOutput gridW1) e .across k
          = some (e.answer.get ⟨k, hk⟩) ∧
      ∃ ch, gridW1.cells (entryCellOf (getBounds gridW1) e).1
        ((entryCellOf (getBounds gridW1) e).2 + (k : Int)) = Cell.letter ch) ∧
    (∀ e ∈ (toOutput gridW1).down, ∀ k, ∀ hk : k < e.answer.length,
      readEntryCell (toOutput gridW1) e .down k
          = some (e.answer.get ⟨k, hk⟩) ∧
      ∃ ch, gridW1.cells ((entryCellOf (getBounds gridW1) e).1 + (k : Int))
        (entryCellOf (getBounds gridW1) e).2 = Cell.letter ch)) :=
  ⟨by decide, by decide, C5_round_trip gridW1 (by decide) (by decide)⟩

end Crossword
